import Mathlib

/-!
# go-crond: start-up glue (`main.go`) and logging collaborator (`logger.go`)

A shallow embedding of the two source files.

* A run of the process is a value `Proc α`: how the run ends (`Res`) together with the
  chronological list of observable events it produced (log records, `os.Open` calls, calls
  into the runner).  `log.Fatalf` ends a run with `Res.exit 1`; a nil dereference or an index
  out of range ends it with `Res.crash`.
* The file system, the current user, the command line and the crontab parser are read from a
  `World` value.  Directory trees are finite (`Node` / `Entries`), so `filepath.Walk` is total.
* A variable captured and appended to by a Go closure (`ret` in `collectCrontabs`) is passed
  explicitly: a callback takes the current value and returns the new one.
* Loops `for i := range xs` are `List.foldlM` over `xs`.
-/

namespace GoCrond

/-! ## Runs of the process -/

/-- Observable events of a run, in the order in which they happen. -/
inductive Event where
  /-- text written by `fmt.Println` / `WriteHelp` to standard output -/
  | stdout (text : String)
  /-- one record written through `LoggerInfo` -/
  | info (msg : String)
  /-- one record written through `LoggerError` -/
  | error (msg : String)
  /-- one record written through a `CronLogger` -/
  | cron (msg : String)
  /-- a call of `os.Open(path)` -/
  | Open (path : String)
  /-- a call of `runtime.GOMAXPROCS(n)` -/
  | GOMAXPROCS (n : Int)
  /-- a call of `NewRunner()` -/
  | NewRunner
  /-- a call of `runner.Add(spec, command)` -/
  | Add (spec command : String)
  /-- a call of `runner.AddWithUser(spec, user, command)` -/
  | AddWithUser (spec user command : String)
  /-- a call of `registerRunnerShutdown(runner, &wg)` -/
  | registerRunnerShutdown
  /-- a call of `runner.Start()` -/
  | Start
  deriving DecidableEq, Repr

/-- How a run (or a part of it) ends. -/
inductive Res (α : Type) where
  /-- control returns normally with a value -/
  | ok (a : α)
  /-- the process terminates through `os.Exit(code)` -/
  | exit (code : Nat)
  /-- the process dies of a Go runtime fault (nil dereference, index out of range) -/
  | crash
  /-- the goroutine blocks (in `wg.Wait()`) -/
  | blocked
  deriving DecidableEq, Repr

/-- A run: its end and the events it produced. -/
structure Proc (α : Type) where
  res : Res α
  trace : List Event
  deriving DecidableEq, Repr

/-- Sequencing: the continuation runs only when the first part returns normally. -/
def Proc.bind {α β : Type} (x : Proc α) (f : α → Proc β) : Proc β :=
  match x.res with
  | .ok a => ⟨(f a).res, x.trace ++ (f a).trace⟩
  | .exit c => ⟨.exit c, x.trace⟩
  | .crash => ⟨.crash, x.trace⟩
  | .blocked => ⟨.blocked, x.trace⟩

instance : Monad Proc where
  pure a := ⟨.ok a, []⟩
  bind := Proc.bind

/-- Produce one event. -/
def emit (e : Event) : Proc Unit := ⟨.ok (), [e]⟩

/-- The call `os.Exit(code)`. -/
def osExit {α : Type} (code : Nat) : Proc α := ⟨.exit code, []⟩

/-- A Go runtime fault. -/
def goPanic {α : Type} : Proc α := ⟨.crash, []⟩

/-- Blocking forever (until a signal, which is not modelled). -/
def block {α : Type} : Proc α := ⟨.blocked, []⟩

/-! ## The Go standard library, as far as the program uses it -/

/-- Go `error` values: `none` is `nil`, `some s` an error whose `Error()` text is `s`. -/
abbrev GoError := Option String

/-- The sentinel `filepath.SkipDir`. -/
def SkipDir : GoError := some "skip this directory"

/-- The sentinel `filepath.SkipAll`. -/
def SkipAll : GoError := some "skip everything and stop the walk"

/-- The type `os.FileMode`, a 32-bit word. -/
structure FileMode where
  bits : Nat
  deriving DecidableEq, Repr

def ModeDir : Nat := 2 ^ 31
def ModeSymlink : Nat := 2 ^ 27
def ModeDevice : Nat := 2 ^ 26
def ModeNamedPipe : Nat := 2 ^ 25
def ModeSocket : Nat := 2 ^ 24
def ModeCharDevice : Nat := 2 ^ 21
def ModeIrregular : Nat := 2 ^ 19

/-- The constant `os.ModeType`: the mask of the file-type bits. -/
def ModeType : Nat :=
  ModeDir ||| ModeSymlink ||| ModeNamedPipe ||| ModeSocket ||| ModeDevice |||
    ModeCharDevice ||| ModeIrregular

/-- The constant `os.ModePerm`: the Unix permission bits. -/
def ModePerm : Nat := 0o777

/-- The method `FileMode.IsDir`. -/
def FileMode.IsDir (m : FileMode) : Bool := m.bits &&& ModeDir != 0

/-- The method `FileMode.IsRegular`. -/
def FileMode.IsRegular (m : FileMode) : Bool := m.bits &&& ModeType == 0

/-- The method `FileMode.Perm`. -/
def FileMode.Perm (m : FileMode) : Nat := m.bits &&& ModePerm

/-- A non-nil `os.FileInfo`. -/
structure FileInfo where
  Mode : FileMode
  deriving DecidableEq, Repr

/-- The method `FileInfo.IsDir`, which is `Mode().IsDir()`. -/
def FileInfo.IsDir (f : FileInfo) : Bool := f.Mode.IsDir

mutual
/-- What `os.Lstat` and `readDirNames` see at one path: the file info, the error of
reading the directory (if any), and the directory entries in the order in which
`readDirNames` lists them.  Entries of a node that is not a directory are never looked at. -/
inductive Node where
  | mk (info : FileInfo) (readDirErr : GoError) (entries : Entries)
/-- Directory entries: a name whose `lstat` fails with an error, or a name with its node. -/
inductive Entries where
  | nil
  | gone (name : String) (err : String) (rest : Entries)
  | node (name : String) (n : Node) (rest : Entries)
end

/-- File info of a node. -/
def Node.info : Node → FileInfo
  | .mk info _ _ => info

/-- The type `user.User`. -/
structure User where
  Uid : String
  deriving DecidableEq, Repr

/-- One schedule-to-command binding.  Its declaration is not part of the two source files;
the fields are the ones the sources use (`Spec`, `User`, `Command` in `main.go`, and `Env`
in `logger.go`). -/
structure CrontabEntry where
  Spec : String
  User : String
  Command : String
  Env : List String
  deriving DecidableEq, Repr

/-- The crontab parser object returned by `NewParser`.  Its implementation is not part of the
two source files; a parser is represented by what its `Parse()` method returns. -/
structure Parser where
  Parse : List CrontabEntry

/-- The global `opts` (main.go:22-34) after flag parsing.  `Verbose` is read by `logger.go`. -/
structure Opts where
  Processes : Int
  DefaultUser : String
  IncludeCronD : List String
  RunParts : List String
  RunParts1m : List String
  RunPartsHourly : List String
  RunPartsDaily : List String
  RunPartsWeekly : List String
  RunPartsMonthly : List String
  ShowVersion : Bool
  ShowHelp : Bool
  Verbose : Bool
  deriving DecidableEq, Repr

/-- Everything the program reads from outside. -/
structure World where
  /-- the call `argparser.Parse()`: fills `opts` and returns the remaining arguments, or fails -/
  ParseArgs : Except String (Opts × List String)
  /-- text written by `argparser.WriteHelp` -/
  Help : String
  /-- the function `filepath.Abs` -/
  Abs : String → Except String String
  /-- the function `filepath.Join` applied to a directory path and an entry name -/
  Join : String → String → String
  /-- the result of `os.Lstat` at a path, with everything below it when it is a directory -/
  Tree : String → Except String Node
  /-- the function `os.Open`: the opened file (its content), or an error -/
  Open : String → Except String String
  /-- the result of `user.Current()` -/
  Current : Except String User
  /-- the function `NewParser(file)` -/
  NewParser : String → Except String Parser

/-- The function `os.Lstat`. -/
def World.Lstat (w : World) (path : String) : Except String FileInfo :=
  match w.Tree path with
  | .ok n => .ok n.info
  | .error e => .error e

/-- The visitor type `filepath.WalkFunc`; `σ` is the state its closure captures. -/
abbrev WalkFunc (σ : Type) := String → Option FileInfo → GoError → σ → Proc (GoError × σ)

mutual
/-- The unexported `filepath.walk`: the visitor is called on the node itself and, for a
readable directory, the entries are walked in order. -/
def walk {σ : Type} (w : World) (walkFn : WalkFunc σ) (path : String) :
    Node → σ → Proc (GoError × σ)
  | .mk info readDirErr entries, acc =>
    if !info.IsDir then
      walkFn path (some info) none acc
    else do
      let (err1, acc) ← walkFn path (some info) readDirErr acc
      if readDirErr != none || err1 != none then
        pure (err1, acc)
      else
        walkNames w walkFn path entries acc
/-- The loop `for _, name := range names` of `filepath.walk`. -/
def walkNames {σ : Type} (w : World) (walkFn : WalkFunc σ) (path : String) :
    Entries → σ → Proc (GoError × σ)
  | .nil, acc => pure (none, acc)
  | .gone name e rest, acc => do
    let (err, acc) ← walkFn (w.Join path name) none (some e) acc
    if err != none && err != SkipDir then
      pure (err, acc)
    else
      walkNames w walkFn path rest acc
  | .node name n rest, acc => do
    let (err, acc) ← walk w walkFn (w.Join path name) n acc
    if err != none && (!n.info.IsDir || err != SkipDir) then
      pure (err, acc)
    else
      walkNames w walkFn path rest acc
end

/-- The function `filepath.Walk`. -/
def Walk {σ : Type} (w : World) (root : String) (fn : WalkFunc σ) (acc : σ) :
    Proc (GoError × σ) := do
  let (err, acc) ←
    match w.Tree root with
    | .error e => fn root none (some e) acc
    | .ok n => walk w fn root n acc
  if err == SkipDir || err == SkipAll then
    pure (none, acc)
  else
    pure (err, acc)

/-- The method `log.Logger.Output`: a newline is appended when the message does not end in one. -/
def logOutput (s : String) : String :=
  if s.data.getLast? = some '\n' then s else s ++ "\n"

/-- The call `strings.Contains(s, ":")`. -/
def containsColon (s : String) : Bool := s.data.contains ':'

/-- The call `strings.SplitN(s, ":", 2)`: split at the first colon, if there is one. -/
def splitN2 (s : String) : List String :=
  match s.data.span (fun c => c != ':') with
  | (_, []) => [s]
  | (a, _ :: b) => [String.mk a, String.mk b]

/-- The call `strings.Join(parts, sep)`. -/
def stringsJoin (parts : List String) (sep : String) : String := sep.intercalate parts

/-! ## main.go -/

def Author : String := "webdevops.io"
def Version : String := "0.1.0"

/-- The call `LoggerInfo.Printf` with the already formatted message.  The fixed prefix
`go-crond: ` that both loggers put in front of every record is left out. -/
def LoggerInfo.Printf (msg : String) : Proc Unit := emit (.info (logOutput msg))

/-- The calls `LoggerError.Printf` and `LoggerError.Println` with the already formatted message. -/
def LoggerError.Printf (msg : String) : Proc Unit := emit (.error (logOutput msg))

/-- The call `LoggerError.Fatalf`: `Printf` followed by `os.Exit(1)`. -/
def LoggerError.Fatalf {α : Type} (msg : String) : Proc α := do
  LoggerError.Printf msg
  osExit 1

/-- Source main.go:72-75. -/
def logFatalErrorAndExit {α : Type} (err : String) (exitCode : Nat) : Proc α := do
  (LoggerError.Fatalf ("ERROR: " ++ err ++ "\n") : Proc Unit)
  osExit exitCode

/-- Source main.go:38-62. -/
def initArgParser (w : World) : Proc (Opts × List String) :=
  match w.ParseArgs with
  | .error err => logFatalErrorAndExit err 1
  | .ok (opts, args) =>
    if opts.ShowVersion then do
      emit (.stdout ("go-crond version " ++ Version ++ "\n"))
      emit (.stdout ("Copyright (C) 2017 " ++ Author ++ "\n"))
      osExit 0
    else if opts.ShowHelp then do
      emit (.stdout w.Help)
      osExit 1
    else
      pure (opts, args)

/-- Source main.go:77-89. -/
def checkIfFileIsValid (f : FileInfo) (path : String) : Proc Bool :=
  if f.Mode.IsRegular then
    if f.Mode.Perm &&& 0o022 == 0 then
      pure true
    else do
      LoggerInfo.Printf ("Ignoring file with wrong modes (not xx22) " ++ path ++ "\n")
      pure false
  else do
    LoggerInfo.Printf ("Ignoring non regular file " ++ path ++ "\n")
    pure false

/-- The function literal handed to `filepath.Walk` in `findFilesInPaths` (main.go:93-105).
The error of `filepath.Abs` is discarded (the path is then the empty string), the `err`
argument is never looked at, and `f.IsDir()` is called on whatever `f` is. -/
def findFilesInPaths.visit {σ : Type} (w : World) (callback : FileInfo → String → σ → Proc σ) :
    WalkFunc σ :=
  fun path f _err acc =>
    let path := match w.Abs path with
      | .ok p => p
      | .error _ => ""
    match f with
    | none => goPanic
    | some f =>
      if f.IsDir then
        pure (none, acc)
      else do
        let valid ← checkIfFileIsValid f path
        if valid then do
          let acc ← callback f path acc
          pure (none, acc)
        else
          pure (none, acc)

/-- Source main.go:91-107. -/
def findFilesInPaths {σ : Type} (w : World) (pathlist : List String)
    (callback : FileInfo → String → σ → Proc σ) (acc : σ) : Proc σ :=
  pathlist.foldlM (fun acc p => do
    let (_, acc) ← Walk w p (findFilesInPaths.visit w callback) acc
    pure acc) acc

/-- Source main.go:109-117. -/
def findExecutabesInPathes {σ : Type} (w : World) (pathlist : List String)
    (callback : FileInfo → String → σ → Proc σ) (acc : σ) : Proc σ :=
  findFilesInPaths w pathlist (fun f path acc =>
    if f.Mode.IsRegular && (f.Mode.Perm &&& 0o100 != 0) then
      callback f path acc
    else do
      LoggerInfo.Printf ("Ignoring non exectuable file " ++ path ++ "\n")
      pure acc) acc

/-- Source main.go:119-133. -/
def parseCrontab (w : World) (path : String) : Proc (List CrontabEntry) := do
  emit (.Open path)
  match w.Open path with
  | .error err => LoggerError.Fatalf ("crontab path: " ++ path ++ " err:" ++ err)
  | .ok file =>
    match w.NewParser file with
    | .error err => LoggerError.Fatalf ("Parser read err: " ++ err)
    | .ok parser => pure parser.Parse

/-- Source main.go:140-153, the body of the loop over the arguments in `collectCrontabs`;
`ret` is the slice collected so far. -/
def collectCrontabs.arg (w : World) (ret : List CrontabEntry) (arg : String) :
    Proc (List CrontabEntry) :=
  match w.Abs arg with
  | .error err => LoggerError.Fatalf ("Invalid file: " ++ err)
  | .ok crontabFile =>
    match w.Lstat crontabFile with
    | .error err => LoggerError.Fatalf ("File stats failed: " ++ err)
    | .ok f => do
      let valid ← checkIfFileIsValid f crontabFile
      if valid then do
        let entries ← parseCrontab w crontabFile
        pure (ret ++ entries)
      else
        pure ret

/-- Source main.go:138-154, the block `// args: crontab files as normal arguments` of
`collectCrontabs`. -/
def collectCrontabs.args (w : World) (args : List String) (ret : List CrontabEntry) :
    Proc (List CrontabEntry) :=
  args.foldlM (collectCrontabs.arg w) ret

/-- Source main.go:156-162, the block `// --include-crond` of `collectCrontabs`. -/
def collectCrontabs.includeCronD (w : World) (opts : Opts) (ret : List CrontabEntry) :
    Proc (List CrontabEntry) :=
  if opts.IncludeCronD.length ≥ 1 then
    findFilesInPaths w opts.IncludeCronD (fun _f path ret => do
      let entries ← parseCrontab w path
      pure (ret ++ entries)) ret
  else pure ret

/-- Source main.go:164-183, the block `// --run-parts` of `collectCrontabs`.  The index
expressions `split[0]`, `split[1]` fault when the slice is too short. -/
def collectCrontabs.runParts (w : World) (opts : Opts) (ret : List CrontabEntry) :
    Proc (List CrontabEntry) :=
  if opts.RunParts.length ≥ 1 then
    opts.RunParts.foldlM (fun ret runPart =>
      if containsColon runPart then
        match splitN2 runPart with
        | cronSpec :: cronPath :: _ =>
          let cronPaths : List String := [] ++ [cronPath]
          findExecutabesInPathes w cronPaths (fun _f path ret =>
            pure (ret ++ [⟨"@every " ++ cronSpec, opts.DefaultUser, path, []⟩])) ret
        | _ => goPanic
      else do
        LoggerError.Printf
          ("Ignoring --run-parts because of missing time spec: " ++ runPart ++ "\n")
        pure ret) ret
  else pure ret

/-- Source main.go:185-190, the block `// --run-parts-minute` of `collectCrontabs`. -/
def collectCrontabs.runParts1m (w : World) (opts : Opts) (ret : List CrontabEntry) :
    Proc (List CrontabEntry) :=
  if opts.RunParts1m.length ≥ 1 then
    findExecutabesInPathes w opts.RunParts1m (fun _f path ret =>
      pure (ret ++ [⟨"@every 1m", opts.DefaultUser, path, []⟩])) ret
  else pure ret

/-- Source main.go:192-197, the block `// --run-parts-hourly` of `collectCrontabs`. -/
def collectCrontabs.runPartsHourly (w : World) (opts : Opts) (ret : List CrontabEntry) :
    Proc (List CrontabEntry) :=
  if opts.RunPartsHourly.length ≥ 1 then
    findExecutabesInPathes w opts.RunPartsHourly (fun _f path ret =>
      pure (ret ++ [⟨"@hourly", opts.DefaultUser, path, []⟩])) ret
  else pure ret

/-- Source main.go:199-204, the block `// --run-parts-daily` of `collectCrontabs`. -/
def collectCrontabs.runPartsDaily (w : World) (opts : Opts) (ret : List CrontabEntry) :
    Proc (List CrontabEntry) :=
  if opts.RunPartsDaily.length ≥ 1 then
    findExecutabesInPathes w opts.RunPartsDaily (fun _f path ret =>
      pure (ret ++ [⟨"@daily", opts.DefaultUser, path, []⟩])) ret
  else pure ret

/-- Source main.go:206-211, the block `// --run-parts-weekly` of `collectCrontabs`. -/
def collectCrontabs.runPartsWeekly (w : World) (opts : Opts) (ret : List CrontabEntry) :
    Proc (List CrontabEntry) :=
  if opts.RunPartsWeekly.length ≥ 1 then
    findExecutabesInPathes w opts.RunPartsWeekly (fun _f path ret =>
      pure (ret ++ [⟨"@weekly", opts.DefaultUser, path, []⟩])) ret
  else pure ret

/-- Source main.go:213-218, the block `// --run-parts-monthly` of `collectCrontabs`. -/
def collectCrontabs.runPartsMonthly (w : World) (opts : Opts) (ret : List CrontabEntry) :
    Proc (List CrontabEntry) :=
  if opts.RunPartsMonthly.length ≥ 1 then
    findExecutabesInPathes w opts.RunPartsMonthly (fun _f path ret =>
      pure (ret ++ [⟨"@monthly", opts.DefaultUser, path, []⟩])) ret
  else pure ret

/-- Source main.go:135-221: the blocks above, one after the other, on the same `ret`. -/
def collectCrontabs (w : World) (opts : Opts) (args : List String) :
    Proc (List CrontabEntry) := do
  let ret : List CrontabEntry := []
  let ret ← collectCrontabs.args w args ret
  let ret ← collectCrontabs.includeCronD w opts ret
  let ret ← collectCrontabs.runParts w opts ret
  let ret ← collectCrontabs.runParts1m w opts ret
  let ret ← collectCrontabs.runPartsHourly w opts ret
  let ret ← collectCrontabs.runPartsDaily w opts ret
  let ret ← collectCrontabs.runPartsWeekly w opts ret
  let ret ← collectCrontabs.runPartsMonthly w opts ret
  pure ret

/-- Modelled from the spec: `NewRunner` (the runner is not part of the two source files)
creates the runner in its initial, stopped state.  The call is recorded as an event. -/
def NewRunner : Proc Unit := emit .NewRunner

/-- Modelled from the spec: `Runner.Add(spec, command)` (the runner is not part of the two
source files) registers a job with no explicit user and returns; a spec that cannot be parsed
is rejected and logged, never fatal.  The call is recorded as an event. -/
def Runner.Add (spec command : String) : Proc Unit := emit (.Add spec command)

/-- Modelled from the spec: `Runner.AddWithUser(spec, user, command)` (the runner is not part
of the two source files) registers a job bound to `user` and returns.  The call is recorded
as an event. -/
def Runner.AddWithUser (spec user command : String) : Proc Unit :=
  emit (.AddWithUser spec user command)

/-- Modelled from the spec: `Runner.Start()` (the runner is not part of the two source files)
starts the scheduling and returns without blocking.  The call is recorded as an event. -/
def Runner.Start : Proc Unit := emit .Start

/-- Source main.go:262-271: the channel is created, the handler goroutine is started, and the
call returns.  The goroutine itself (it waits for a signal) is not modelled. -/
def registerRunnerShutdown : Proc Unit := emit .registerRunnerShutdown

/-- Source main.go:66-69: the two loggers are created; nothing observable happens. -/
def initLogger : Proc Unit := pure ()

/-- Source main.go:223-260, up to the point where `main` blocks in `wg.Wait()`.  A nil
`currentUser` (when `user.Current()` fails, its error being discarded) faults at
`currentUser.Uid`. -/
def main (w : World) : Proc Unit := do
  initLogger
  let (opts, args) ← initArgParser w
  LoggerInfo.Printf ("Starting version " ++ Version)
  let enableUserSwitch ←
    match w.Current with
    | .error _ => goPanic
    | .ok currentUser =>
      if currentUser.Uid != "0" then do
        LoggerError.Printf
          "WARNING: go-crond is NOT running as root, disabling user switching\n"
        pure false
      else
        pure true
  let crontabEntries ← collectCrontabs w opts args
  emit (.GOMAXPROCS opts.Processes)
  NewRunner
  crontabEntries.forM (fun crontabEntry =>
    if enableUserSwitch then
      Runner.AddWithUser crontabEntry.Spec crontabEntry.User crontabEntry.Command
    else
      Runner.Add crontabEntry.Spec crontabEntry.Command)
  registerRunnerShutdown
  Runner.Start
  block

/-! ## logger.go -/

/-- The call `CronLogger.Printf` with the already formatted message. -/
def CronLogger.Printf (msg : String) : Proc Unit := emit (.cron (logOutput msg))

/-- The verb `%v` applied to a `[]string`. -/
def fmtStrings (xs : List String) : String := "[" ++ " ".intercalate xs ++ "]"

/-- The verb `%v` applied to an `error`. -/
def fmtError : GoError → String
  | none => "<nil>"
  | some e => e

/-- Source logger.go:14-18. -/
def CronLogger.Verbose (opts : Opts) (message : String) : Proc Unit :=
  if opts.Verbose then
    CronLogger.Printf (message ++ "\n")
  else
    pure ()

/-- Source logger.go:20-32. -/
def CronLogger.cronjobToString (cronjob : CrontabEntry) : String :=
  let parts : List String := []
  let parts := parts ++ ["spec:" ++ "\x27" ++ cronjob.Spec ++ "\x27"]
  let parts := parts ++ ["usr:" ++ cronjob.User]
  let parts := parts ++ ["cmd:" ++ "\x27" ++ cronjob.Command ++ "\x27"]
  let parts :=
    if cronjob.Env.length ≥ 1 then
      parts ++ ["env:" ++ "\x27" ++ fmtStrings cronjob.Env ++ "\x27"]
    else parts
  stringsJoin parts " "

/-- Source logger.go:34-36.  The global `opts` is in scope and is not read. -/
def CronLogger.CronjobAdd (_opts : Opts) (cronjob : CrontabEntry) : Proc Unit :=
  CronLogger.Printf ("add: " ++ CronLogger.cronjobToString cronjob ++ "\n")

/-- Source logger.go:38-42. -/
def CronLogger.CronjobExec (opts : Opts) (cronjob : CrontabEntry) : Proc Unit :=
  if opts.Verbose then
    CronLogger.Printf ("exec: " ++ CronLogger.cronjobToString cronjob ++ "\n")
  else
    pure ()

/-- Source logger.go:44-46.  The global `opts` is in scope and is not read. -/
def CronLogger.CronjobExecFailed (_opts : Opts) (cronjob : CrontabEntry) (output : String)
    (err : GoError) : Proc Unit :=
  CronLogger.Printf
    ("failed cronjob: cmd:" ++ cronjob.Command ++ " out:" ++ output ++ " err:" ++ fmtError err
      ++ "\n")

/-- Source logger.go:48-52. -/
def CronLogger.CronjobExecSuccess (opts : Opts) (cronjob : CrontabEntry) : Proc Unit :=
  if opts.Verbose then
    CronLogger.Printf ("ok: " ++ CronLogger.cronjobToString cronjob ++ "\n")
  else
    pure ()

/-! ## Vocabulary of the statements -/

/-- The path a visited file is reported under: `filepath.Abs` of the walked path, or the
empty string when `filepath.Abs` fails (its error is discarded at main.go:94). -/
def World.absPath (w : World) (path : String) : String :=
  match w.Abs path with
  | .ok p => p
  | .error _ => ""

mutual
/-- The paths below (and including) a node, in the order in which `filepath.Walk` hands them
to a visitor that never returns an error (as the one of `findFilesInPaths`), each with the
file info handed over (`none` when `lstat` failed). -/
def Node.visits (w : World) (path : String) : Node → List (String × Option FileInfo)
  | .mk info readDirErr entries =>
    if !info.IsDir then [(path, some info)]
    else if readDirErr != none then [(path, some info)]
    else (path, some info) :: Entries.visits w path entries
/-- The paths below the entries of a directory, in walking order. -/
def Entries.visits (w : World) (path : String) : Entries → List (String × Option FileInfo)
  | .nil => []
  | .gone name _ rest => (w.Join path name, none) :: Entries.visits w path rest
  | .node name n rest => Node.visits w (w.Join path name) n ++ Entries.visits w path rest
end

/-- Everything `filepath.Walk` visits for the given roots, in order. -/
def World.found (w : World) (pathlist : List String) : List (String × Option FileInfo) :=
  pathlist.flatMap (fun root =>
    match w.Tree root with
    | .error _ => [(root, none)]
    | .ok n => Node.visits w root n)

/-- The file a visit is about: the file info with the reported path, unless `lstat` failed or
the path is a directory. -/
def World.toFile (w : World) (v : String × Option FileInfo) : Option (FileInfo × String) :=
  match v.2 with
  | some f => if f.IsDir then none else some (f, w.absPath v.1)
  | none => none

/-- The non-directory files among the visited paths, in walking order, each with the path it
is reported under. -/
def World.files (w : World) (pathlist : List String) : List (FileInfo × String) :=
  (w.found pathlist).filterMap w.toFile

/-- The walk of the given roots never meets a path whose `lstat` fails. -/
def World.statable (w : World) (pathlist : List String) : Bool :=
  (w.found pathlist).all (fun v => v.2.isSome)

/-- A regular file without group-write and other-write permission. -/
def FileInfo.valid (f : FileInfo) : Bool :=
  f.Mode.IsRegular && (f.Mode.Perm &&& 0o022 == 0)

/-- A regular file that somebody may execute. -/
def FileInfo.executable (f : FileInfo) : Bool :=
  f.Mode.IsRegular && (f.Mode.Perm &&& 0o100 != 0)

/-- The message `checkIfFileIsValid` logs for a file it rejects. -/
def ignoredMsg (f : FileInfo) (path : String) : String :=
  if f.Mode.IsRegular then "Ignoring file with wrong modes (not xx22) " ++ path ++ "\n"
  else "Ignoring non regular file " ++ path ++ "\n"

/-- What the visitor of `findFilesInPaths` does to the captured state at one visited path. -/
def visitStep {σ : Type} (w : World) (callback : FileInfo → String → σ → Proc σ) (acc : σ)
    (v : String × Option FileInfo) : Proc σ :=
  match v.2 with
  | none => goPanic
  | some f =>
    if f.IsDir then pure acc
    else if f.valid then callback f (w.absPath v.1) acc
    else ⟨.ok acc, [.info (logOutput (ignoredMsg f (w.absPath v.1)))]⟩

/-- What the visitor of `findFilesInPaths` does to the captured state at one non-directory
file: the callback runs when the file passes the check, otherwise one message is logged. -/
def fileStep {σ : Type} (callback : FileInfo → String → σ → Proc σ) (acc : σ)
    (fp : FileInfo × String) : Proc σ :=
  if fp.1.valid then callback fp.1 fp.2 acc
  else ⟨.ok acc, [.info (logOutput (ignoredMsg fp.1 fp.2))]⟩

/-- The eligible executables among the visited files: they pass the check and somebody may
execute them. -/
def World.executables (w : World) (pathlist : List String) : List (FileInfo × String) :=
  (w.files pathlist).filter (fun fp => fp.1.valid && fp.1.executable)

/-- The entries of the crontab at a path, when the file can be opened and a parser can be
built on it. -/
def World.crontab (w : World) (path : String) : Option (List CrontabEntry) :=
  match w.Open path with
  | .error _ => none
  | .ok file =>
    match w.NewParser file with
    | .error _ => none
    | .ok parser => some parser.Parse

/-- The entries of the crontab at a path, none when it cannot be read. -/
def World.entriesOf (w : World) (path : String) : List CrontabEntry :=
  (w.crontab path).getD []

/-- The absolute path of an explicitly named crontab file that can be stat-ed and passes the
check. -/
def World.argSource (w : World) (arg : String) : Option String :=
  match w.Abs arg with
  | .error _ => none
  | .ok p =>
    match w.Lstat p with
    | .error _ => none
    | .ok f => if f.valid then some p else none

/-- The explicitly named crontab files that can be stat-ed and pass the check, by absolute
path, in argument order. -/
def World.argSources (w : World) (args : List String) : List String :=
  args.filterMap w.argSource

/-- The files found under the `--include` directories that pass the check, by reported path,
in walking order. -/
def World.includeSources (w : World) (opts : Opts) : List String :=
  ((w.files opts.IncludeCronD).filter (fun fp => fp.1.valid)).map (fun fp => fp.2)

/-- The calls into the runner. -/
def Event.isRunnerCall : Event → Bool
  | .NewRunner => true
  | .Add _ _ => true
  | .AddWithUser _ _ _ => true
  | .Start => true
  | _ => false

/-- What `findExecutabesInPathes` logs about one non-directory file: nothing for an eligible
executable, otherwise the message of the check that rejects it. -/
def execLog (fp : FileInfo × String) : List Event :=
  if fp.1.valid then
    if fp.1.executable then []
    else [.info (logOutput ("Ignoring non exectuable file " ++ fp.2 ++ "\n"))]
  else [.info (logOutput (ignoredMsg fp.1 fp.2))]

/-- The events `collectCrontabs` may produce when the crontab sources are `S`: log records,
and `os.Open` on a path of `S`. -/
def Event.collecting (S : List String) : Event → Prop
  | .info _ => True
  | .error _ => True
  | .Open p => p ∈ S
  | _ => False

/-- The entries one `--run-parts` argument stands for: one per eligible executable below the
path part, when the argument splits into a time spec and a path. -/
def World.everyEntries (w : World) (opts : Opts) (runPart : String) : List CrontabEntry :=
  match splitN2 runPart with
  | [cronSpec, cronPath] =>
    (w.executables [cronPath]).map (fun fp =>
      ⟨"@every " ++ cronSpec, opts.DefaultUser, fp.2, []⟩)
  | _ => []

/-- The walk of the path part of a `--run-parts` argument meets no path whose `lstat` fails
(true for an argument that does not split into a time spec and a path). -/
def World.runPartStatable (w : World) (runPart : String) : Bool :=
  match splitN2 runPart with
  | [_, cronPath] => w.statable [cronPath]
  | _ => true

/-- A run that ends the process with a fatal error: exit status 1, the last thing it did
being a record written through `LoggerError`. -/
def Proc.fatal {α : Type} (x : Proc α) : Prop :=
  x.res = .exit 1 ∧ ∃ t msg, x.trace = t ++ [.error msg]

/-! ## Concrete file systems and command lines -/

/-- A regular file with the given permission bits. -/
def regularFile (perm : Nat) : Node := .mk ⟨⟨perm⟩⟩ none .nil

/-- A readable directory with the given permission bits and entries. -/
def directory (perm : Nat) (entries : Entries) : Node := .mk ⟨⟨ModeDir ||| perm⟩⟩ none entries

/-- A small file system, every directory listed in the sorted order of `readDirNames`.
`/etc/secret` is group-writable, `/etc/cron.d/draft` is writable by
everybody, `/etc/cron.hourly/notes` is not executable; `/etc/secret` and
`/etc/cron.locked/private` cannot be opened; any other path does not exist. -/
def sampleTree (path : String) : Except String Node :=
  if path = "/etc/crontab" then .ok (regularFile 0o644)
  else if path = "/etc/secret" then .ok (regularFile 0o620)
  else if path = "/etc/cron.d" then
    .ok (directory 0o755
      (.node "backup" (regularFile 0o644) (.node "draft" (regularFile 0o666) .nil)))
  else if path = "/etc/cron.locked" then
    .ok (directory 0o755 (.node "private" (regularFile 0o600) .nil))
  else if path = "/etc/cron.locked/private" then .ok (regularFile 0o600)
  else if path = "/etc/cron.hourly" then
    .ok (directory 0o755
      (.node "notes" (regularFile 0o644) (.node "rotate" (regularFile 0o755) .nil)))
  else if path = "/srv/jobs" then
    .ok (directory 0o755
      (.node "lib" (directory 0o755 (.node "helper" (regularFile 0o750) .nil))
        (.node "sync" (regularFile 0o700) .nil)))
  else .error "no such file or directory"

/-- Options with nothing but the defaults. -/
def plainOpts : Opts :=
  { Processes := 1, DefaultUser := "root", IncludeCronD := [], RunParts := [],
    RunParts1m := [], RunPartsHourly := [], RunPartsDaily := [], RunPartsWeekly := [],
    RunPartsMonthly := [], ShowVersion := false, ShowHelp := false, Verbose := false }

/-- The world of a process started by the user `uid` with the given options and arguments on
the sample file system.  A crontab that can be opened holds one `@daily` job naming its own
path. -/
def sampleWorld (uid : String) (opts : Opts) (args : List String) : World where
  ParseArgs := .ok (opts, args)
  Help := "Usage: go-crond [OPTIONS]"
  Abs := fun path => .ok path
  Join := fun dir name => dir ++ "/" ++ name
  Tree := sampleTree
  Open := fun path =>
    if path = "/etc/secret" || path = "/etc/cron.locked/private" then
      .error "permission denied"
    else .ok path
  Current := .ok ⟨uid⟩
  NewParser := fun file => .ok ⟨[⟨"@daily", "root", "run " ++ file, []⟩]⟩

/-- Options naming one `--include` directory whose only file cannot be opened. -/
def lockedOpts : Opts := { plainOpts with IncludeCronD := ["/etc/cron.locked"] }

/-- Options naming one `--include` directory that does not exist. -/
def missingOpts : Opts := { plainOpts with IncludeCronD := ["/etc/cron.weekly"] }

/-- A command line using every kind of source. -/
def fullOpts : Opts :=
  { plainOpts with
    IncludeCronD := ["/etc/cron.d"]
    RunParts := ["5m:/srv/jobs", "/srv/jobs"]
    RunPartsHourly := ["/etc/cron.hourly"] }

end GoCrond

namespace GoCrond

/-! ## Runs: basic facts -/

theorem Proc.pure_eq {α : Type} (a : α) : (pure a : Proc α) = ⟨.ok a, []⟩ := rfl

theorem Proc.bind_ok {α β : Type} (a : α) (t : List Event) (f : α → Proc β) :
    (⟨.ok a, t⟩ : Proc α) >>= f = ⟨(f a).res, t ++ (f a).trace⟩ := rfl

theorem Proc.map_ok {α β : Type} (g : α → β) (a : α) (t : List Event) :
    g <$> (⟨.ok a, t⟩ : Proc α) = ⟨.ok (g a), t⟩ := by
  show Proc.bind ⟨.ok a, t⟩ _ = _
  simp [Proc.bind, Function.comp, Proc.pure_eq]

theorem Proc.bind_of_ok {α β : Type} {x : Proc α} {a : α} (h : x.res = .ok a)
    (f : α → Proc β) : x >>= f = ⟨(f a).res, x.trace ++ (f a).trace⟩ := by
  cases x with
  | mk r t => cases h; rfl

instance : LawfulMonad Proc := LawfulMonad.mk' Proc
  (by
    intro α x
    cases x with
    | mk r t => cases r <;> simp [Functor.map, Proc.bind])
  (by
    intro α β a f
    show Proc.bind ⟨.ok a, []⟩ f = f a
    simp [Proc.bind])
  (by
    intro α β γ x f g
    show Proc.bind (Proc.bind x f) g = Proc.bind x (fun a => Proc.bind (f a) g)
    cases x with
    | mk r t =>
      cases r with
      | ok a =>
        cases hfa : f a with
        | mk r2 t2 => cases r2 <;> simp [Proc.bind, hfa]
      | exit c => rfl
      | crash => rfl
      | blocked => rfl)

/-! ## The file check and the directory walk -/

theorem checkIfFileIsValid_eq (f : FileInfo) (path : String) :
    checkIfFileIsValid f path =
      ⟨.ok f.valid, if f.valid then [] else [.info (logOutput (ignoredMsg f path))]⟩ := by
  unfold checkIfFileIsValid FileInfo.valid ignoredMsg
  by_cases h1 : f.Mode.IsRegular = true
  · by_cases h2 : (f.Mode.Perm &&& 0o022 == 0) = true
    · simp [h1, h2, Proc.pure_eq]
    · simp [h1, h2]
      rfl
  · simp [h1]
    rfl

theorem visit_eq {σ : Type} (w : World) (cb : FileInfo → String → σ → Proc σ) (path : String)
    (f : Option FileInfo) (err : GoError) (acc : σ) :
    findFilesInPaths.visit w cb path f err acc =
      visitStep w cb acc (path, f) >>= fun a => pure (none, a) := by
  unfold findFilesInPaths.visit visitStep
  cases f with
  | none => rfl
  | some f =>
    by_cases hd : f.IsDir = true
    · simp [hd]
    · by_cases hv : f.valid = true
      · simp [hd, hv, checkIfFileIsValid_eq, Proc.bind_ok, World.absPath]
      · simp [hd, hv, checkIfFileIsValid_eq, Proc.bind_ok, World.absPath, Proc.map_ok,
          Proc.pure_eq]

theorem visitStep_dir {σ : Type} (w : World) (cb : FileInfo → String → σ → Proc σ) (acc : σ)
    (path : String) (f : FileInfo) (hd : f.IsDir = true) :
    visitStep w cb acc (path, some f) = pure acc := by
  simp [visitStep, hd]

mutual
theorem walk_eq {σ : Type} (w : World) (cb : FileInfo → String → σ → Proc σ) :
    ∀ (n : Node) (path : String) (acc : σ),
      walk w (findFilesInPaths.visit w cb) path n acc =
        (Node.visits w path n).foldlM (visitStep w cb) acc >>= fun a => pure (none, a)
  | .mk info e es, path, acc => by
    unfold walk Node.visits
    by_cases hd : info.IsDir = true
    · cases e with
      | none =>
        simp [hd, visit_eq, visitStep_dir]
        exact walkNames_eq w cb es path acc
      | some e =>
        simp [hd, visit_eq, visitStep_dir]
    · simp [hd, visit_eq]
theorem walkNames_eq {σ : Type} (w : World) (cb : FileInfo → String → σ → Proc σ) :
    ∀ (es : Entries) (path : String) (acc : σ),
      walkNames w (findFilesInPaths.visit w cb) path es acc =
        (Entries.visits w path es).foldlM (visitStep w cb) acc >>= fun a => pure (none, a)
  | .nil, path, acc => by
    simp [walkNames, Entries.visits]
  | .gone name e rest, path, acc => by
    unfold walkNames Entries.visits
    simp [visit_eq]
    congr 1
    funext a
    exact walkNames_eq w cb rest path a
  | .node name n rest, path, acc => by
    unfold walkNames Entries.visits
    rw [walk_eq w cb n (w.Join path name) acc]
    simp [List.foldlM_append]
    congr 1
    funext a
    exact walkNames_eq w cb rest path a
end

theorem Walk_eq {σ : Type} (w : World) (cb : FileInfo → String → σ → Proc σ) (root : String)
    (acc : σ) :
    Walk w root (findFilesInPaths.visit w cb) acc =
      (w.found [root]).foldlM (visitStep w cb) acc >>= fun a => pure (none, a) := by
  unfold Walk World.found
  cases h : w.Tree root with
  | error e =>
    simp [visit_eq, SkipDir, SkipAll, h]
  | ok n =>
    simp [walk_eq, SkipDir, SkipAll, h]

theorem foldlM_flatMap {σ U V : Type} (g : σ → V → Proc σ) (f : U → List V) :
    ∀ (xs : List U) (a : σ),
      (xs.flatMap f).foldlM g a = xs.foldlM (fun a x => (f x).foldlM g a) a
  | [], a => by simp
  | x :: xs, a => by
    simp [List.flatMap_cons, List.foldlM_append]
    congr 1
    funext b
    exact foldlM_flatMap g f xs b

theorem findFilesInPaths_eq {σ : Type} (w : World) (pathlist : List String)
    (cb : FileInfo → String → σ → Proc σ) (acc : σ) :
    findFilesInPaths w pathlist cb acc = (w.found pathlist).foldlM (visitStep w cb) acc := by
  unfold findFilesInPaths
  rw [World.found, foldlM_flatMap]
  congr 1
  funext a root
  have h := Walk_eq w cb root a
  simp [World.found] at h
  simp [h]

/-! ## Sequencing and loops: how results and traces compose -/

theorem Proc.bind_res_ok {α β : Type} {x : Proc α} {f : α → Proc β} {b : β}
    (h : (x >>= f).res = .ok b) : ∃ a, x.res = .ok a ∧ (f a).res = .ok b := by
  rcases x with ⟨r, t⟩
  cases r with
  | ok a => exact ⟨a, rfl, h⟩
  | exit c => cases h
  | crash => cases h
  | blocked => cases h

theorem Proc.bind_res_of_ok {α β : Type} {x : Proc α} {f : α → Proc β} {a : α}
    (h : x.res = .ok a) : (x >>= f).res = (f a).res := by
  rw [Proc.bind_of_ok h]

theorem Proc.bind_res_abort {α β : Type} {x : Proc α} (f : α → Proc β) {R : Res α}
    (h : x.res = R) (hR : ∀ a, R ≠ .ok a) :
    (∃ R2 : Res β, (x >>= f).res = R2 ∧ (∀ b, R2 ≠ .ok b)) ∧ (x >>= f).trace = x.trace := by
  rcases x with ⟨r, t⟩
  cases r with
  | ok a => exact absurd h.symm (hR a)
  | exit c => exact ⟨⟨.exit c, rfl, fun b hb => by cases hb⟩, rfl⟩
  | crash => exact ⟨⟨.crash, rfl, fun b hb => by cases hb⟩, rfl⟩
  | blocked => exact ⟨⟨.blocked, rfl, fun b hb => by cases hb⟩, rfl⟩

theorem Proc.bind_trace_forall {α β : Type} {K : Event → Prop} {x : Proc α} {f : α → Proc β}
    (hx : ∀ e ∈ x.trace, K e) (hf : ∀ a, ∀ e ∈ (f a).trace, K e) :
    ∀ e ∈ (x >>= f).trace, K e := by
  rcases x with ⟨r, t⟩
  cases r with
  | ok a =>
    intro e he
    rw [Proc.bind_ok] at he
    rcases List.mem_append.1 he with h | h
    · exact hx e h
    · exact hf a e h
  | exit c => exact hx
  | crash => exact hx
  | blocked => exact hx

theorem foldlM_trace_forall {σ V : Type} {K : Event → Prop} (g : σ → V → Proc σ) :
    ∀ (xs : List V) (a : σ), (∀ v ∈ xs, ∀ a, ∀ e ∈ (g a v).trace, K e) →
      ∀ e ∈ (xs.foldlM g a).trace, K e
  | [], a, _ => by simp [Proc.pure_eq]
  | x :: xs, a, h => by
    rw [List.foldlM_cons]
    apply Proc.bind_trace_forall
    · exact h x (List.mem_cons_self _ _) a
    · intro b
      exact foldlM_trace_forall g xs b (fun v hv => h v (List.mem_cons_of_mem _ hv))

theorem foldlM_all_ok {β V : Type} (g : List β → V → Proc (List β)) (o : V → List β)
    (t : V → List Event) :
    ∀ (xs : List V) (a : List β), (∀ v ∈ xs, ∀ a, g a v = ⟨.ok (a ++ o v), t v⟩) →
      xs.foldlM g a = ⟨.ok (a ++ xs.flatMap o), xs.flatMap t⟩
  | [], a, _ => by simp [Proc.pure_eq]
  | x :: xs, a, h => by
    rw [List.foldlM_cons, h x (List.mem_cons_self _ _) a, Proc.bind_ok,
      foldlM_all_ok g o t xs _ (fun v hv => h v (List.mem_cons_of_mem _ hv))]
    simp [List.flatMap_cons]

theorem foldlM_ok_only {β V : Type} (g : List β → V → Proc (List β)) (o : V → List β) :
    ∀ (xs : List V) (a r : List β),
      (∀ v ∈ xs, ∀ a r, (g a v).res = .ok r → r = a ++ o v) →
      (xs.foldlM g a).res = .ok r → r = a ++ xs.flatMap o
  | [], a, r, _, hr => by
    simp [Proc.pure_eq] at hr
    simp [hr]
  | x :: xs, a, r, h, hr => by
    rw [List.foldlM_cons] at hr
    obtain ⟨b, hb, hr2⟩ := Proc.bind_res_ok hr
    have h1 := h x (List.mem_cons_self _ _) a b hb
    have h2 := foldlM_ok_only g o xs b r (fun v hv => h v (List.mem_cons_of_mem _ hv)) hr2
    rw [h2, h1]
    simp [List.flatMap_cons]

theorem foldlM_abort {σ V : Type} (g : σ → V → Proc σ) (R : Res σ) (hR : ∀ a, R ≠ .ok a) :
    ∀ (xs : List V) (a : σ),
      (∀ v ∈ xs, ∀ a, (∃ r, (g a v).res = .ok r) ∨ (g a v).res = R) →
      (∃ v ∈ xs, ∀ a, (g a v).res = R) → (xs.foldlM g a).res = R
  | [], a, _, hex => by
    obtain ⟨v, hv, _⟩ := hex
    cases hv
  | x :: xs, a, h, hex => by
    rw [List.foldlM_cons]
    rcases h x (List.mem_cons_self _ _) a with ⟨b, hb⟩ | hbad
    · rw [Proc.bind_res_of_ok hb]
      apply foldlM_abort g R hR xs b (fun v hv => h v (List.mem_cons_of_mem _ hv))
      obtain ⟨v, hv, hvR⟩ := hex
      rcases List.mem_cons.1 hv with rfl | hv2
      · exact absurd ((hvR a).symm.trans hb) (hR b)
      · exact ⟨v, hv2, hvR⟩
    · rcases hx : g a x with ⟨r, t⟩
      rw [hx] at hbad
      simp only at hbad
      subst hbad
      cases r with
      | ok b => exact absurd rfl (hR b)
      | exit c => rfl
      | crash => rfl
      | blocked => rfl

/-! ## The walk in terms of the files it finds -/

theorem foldlM_visitStep_statable {σ : Type} (w : World)
    (cb : FileInfo → String → σ → Proc σ) :
    ∀ (l : List (String × Option FileInfo)) (acc : σ),
      l.all (fun v => v.2.isSome) = true →
      l.foldlM (visitStep w cb) acc = (l.filterMap w.toFile).foldlM (fileStep cb) acc
  | [], acc, _ => by simp
  | (path, none) :: l, acc, h => by simp at h
  | (path, some f) :: l, acc, h => by
    have hl : l.all (fun v => v.2.isSome) = true := by
      simp only [List.all_cons, Bool.and_eq_true] at h
      exact h.2
    by_cases hd : f.IsDir = true
    · simp [visitStep, World.toFile, hd, foldlM_visitStep_statable w cb l _ hl]
    · simp [visitStep, World.toFile, hd, fileStep]
      congr 1
      funext a
      exact foldlM_visitStep_statable w cb l a hl

theorem foldlM_visitStep_not_ok {σ : Type} (w : World)
    (cb : FileInfo → String → σ → Proc σ) :
    ∀ (l : List (String × Option FileInfo)) (acc : σ),
      l.all (fun v => v.2.isSome) = false →
      ∀ r, (l.foldlM (visitStep w cb) acc).res ≠ .ok r
  | [], acc, h => by simp at h
  | (path, none) :: l, acc, _ => by
    intro r hr
    rw [List.foldlM_cons] at hr
    obtain ⟨b, hb, _⟩ := Proc.bind_res_ok hr
    simp [visitStep, goPanic] at hb
  | (path, some f) :: l, acc, h => by
    have hl : l.all (fun v => v.2.isSome) = false := by
      simpa using h
    intro r hr
    rw [List.foldlM_cons] at hr
    obtain ⟨b, _, hr2⟩ := Proc.bind_res_ok hr
    exact foldlM_visitStep_not_ok w cb l b hl r hr2

theorem foldlM_visitStep_crash {σ : Type} (w : World)
    (cb : FileInfo → String → σ → Proc σ) (hcb : ∀ f p a, ∃ r, (cb f p a).res = .ok r) :
    ∀ (l : List (String × Option FileInfo)) (acc : σ),
      l.all (fun v => v.2.isSome) = false →
      (l.foldlM (visitStep w cb) acc).res = .crash := by
  intro l acc h
  apply foldlM_abort (visitStep w cb) .crash (fun a ha => by cases ha) l acc
  · intro v _ a
    rcases v with ⟨path, f⟩
    cases f with
    | none => exact Or.inr rfl
    | some f =>
      left
      by_cases hd : f.IsDir = true
      · exact ⟨a, by simp [visitStep, hd, Proc.pure_eq]⟩
      · by_cases hv : f.valid = true
        · obtain ⟨r, hr⟩ := hcb f (w.absPath path) a
          exact ⟨r, by simp [visitStep, hd, hv, hr]⟩
        · exact ⟨a, by simp [visitStep, hd, hv]⟩
  · have h2 : ¬ (∀ v ∈ l, v.2.isSome = true) := by
      intro hall
      rw [List.all_eq_true.2 hall] at h
      cases h
    push_neg at h2
    obtain ⟨v, hv, hvn⟩ := h2
    refine ⟨v, hv, fun a => ?_⟩
    rcases v with ⟨path, f⟩
    cases f with
    | none => rfl
    | some f => simp at hvn

/-! ## Reading a crontab, collecting executables -/

theorem parseCrontab_of_some {w : World} {path : String} {es : List CrontabEntry}
    (h : w.crontab path = some es) : parseCrontab w path = ⟨.ok es, [.Open path]⟩ := by
  unfold World.crontab at h
  unfold parseCrontab
  cases ho : w.Open path with
  | error e => simp [ho] at h
  | ok file =>
    cases hp : w.NewParser file with
    | error e => simp [ho, hp] at h
    | ok parser =>
      simp [ho, hp] at h
      simp [hp, emit, Proc.bind_ok, Proc.pure_eq, h]

theorem parseCrontab_of_none {w : World} {path : String} (h : w.crontab path = none) :
    ∃ msg, parseCrontab w path = ⟨.exit 1, [.Open path, .error msg]⟩ := by
  unfold World.crontab at h
  unfold parseCrontab
  cases ho : w.Open path with
  | error e =>
    exact ⟨logOutput ("crontab path: " ++ path ++ " err:" ++ e),
      by simp [emit, Proc.bind_ok, LoggerError.Fatalf, LoggerError.Printf, osExit]⟩
  | ok file =>
    cases hp : w.NewParser file with
    | error e =>
      exact ⟨logOutput ("Parser read err: " ++ e),
        by simp [hp, emit, Proc.bind_ok, LoggerError.Fatalf, LoggerError.Printf, osExit]⟩
    | ok parser => simp [ho, hp] at h

theorem flatMap_ite_singleton {α β : Type} (q : α → Bool) (k : α → β) :
    ∀ l : List α, l.flatMap (fun x => if q x then [k x] else []) = (l.filter q).map k
  | [] => rfl
  | x :: l => by
    by_cases hq : q x = true <;>
      simp [List.flatMap_cons, List.filter_cons, hq, flatMap_ite_singleton q k l]

theorem findExecutabes_statable {β : Type} (w : World) (pathlist : List String)
    (mk : FileInfo → String → β) (acc : List β) (h : w.statable pathlist = true) :
    findExecutabesInPathes w pathlist (fun f path ret => pure (ret ++ [mk f path])) acc =
      ⟨.ok (acc ++ (w.executables pathlist).map (fun fp => mk fp.1 fp.2)),
        (w.files pathlist).flatMap execLog⟩ := by
  unfold findExecutabesInPathes
  rw [findFilesInPaths_eq, foldlM_visitStep_statable w _ _ _ h]
  rw [foldlM_all_ok _ (fun fp => if fp.1.valid && fp.1.executable then [mk fp.1 fp.2] else [])
    execLog]
  · rw [flatMap_ite_singleton]
    rfl
  · intro fp _ a
    rcases fp with ⟨f, path⟩
    by_cases hv : f.valid = true
    · by_cases hx : f.executable = true
      · have hx2 := hx
        unfold FileInfo.executable at hx2
        simp [fileStep, execLog, hv, hx, hx2, Proc.pure_eq]
      · have hx2 := hx
        unfold FileInfo.executable at hx2
        simp [fileStep, execLog, hv, hx, hx2, Proc.pure_eq, LoggerInfo.Printf, emit,
          Proc.bind_ok]
    · simp [fileStep, execLog, hv]

theorem findExecutabes_not_statable {β : Type} (w : World) (pathlist : List String)
    (mk : FileInfo → String → β) (acc : List β) (h : w.statable pathlist = false) :
    (findExecutabesInPathes w pathlist
      (fun f path ret => pure (ret ++ [mk f path])) acc).res = .crash := by
  unfold findExecutabesInPathes
  rw [findFilesInPaths_eq]
  apply foldlM_visitStep_crash w _ _ _ _ h
  intro f path a
  by_cases hx : (f.Mode.IsRegular && (f.Mode.Perm &&& 0o100 != 0)) = true
  · exact ⟨a ++ [mk f path], by simp [hx, Proc.pure_eq]⟩
  · exact ⟨a, by simp [hx, LoggerInfo.Printf, emit, Proc.bind_ok, Proc.pure_eq]⟩

/-! ## logger.go -/

theorem logOutput_newline (s : String) : logOutput (s ++ "\n") = s ++ "\n" := by
  unfold logOutput
  have h : (s ++ "\n").data.getLast? = some (Char.ofNat 10) := by
    rw [String.data_append]
    show (s.data ++ [Char.ofNat 10]).getLast? = _
    simp
  rw [if_pos h]

/-- C6: `CronjobExec` and `CronjobExecSuccess` write exactly one record through the
`CronLogger` when `opts.Verbose` is set and nothing at all otherwise; `CronjobExecFailed` and
`CronjobAdd` write exactly one record whatever `opts` is.  All four return normally.  (One
record is one `Printf` call, that is one write to the logger's output.) -/
theorem cronLogger_records (opts : Opts) (cronjob : CrontabEntry) (output : String)
    (err : GoError) :
    (∃ line, CronLogger.CronjobExec opts cronjob =
        ⟨.ok (), if opts.Verbose then [.cron line] else []⟩)
    ∧ (∃ line, CronLogger.CronjobExecSuccess opts cronjob =
        ⟨.ok (), if opts.Verbose then [.cron line] else []⟩)
    ∧ (∃ line, CronLogger.CronjobExecFailed opts cronjob output err = ⟨.ok (), [.cron line]⟩)
    ∧ (∃ line, CronLogger.CronjobAdd opts cronjob = ⟨.ok (), [.cron line]⟩) := by
  refine ⟨⟨logOutput ("exec: " ++ CronLogger.cronjobToString cronjob ++ "\n"), ?_⟩,
    ⟨logOutput ("ok: " ++ CronLogger.cronjobToString cronjob ++ "\n"), ?_⟩, ⟨_, rfl⟩, ⟨_, rfl⟩⟩
  · unfold CronLogger.CronjobExec
    cases opts.Verbose <;> rfl
  · unfold CronLogger.CronjobExecSuccess
    cases opts.Verbose <;> rfl

/-- C7: for every entry, captured output and error with text `e`, `CronjobExecFailed` writes
the one record `failed cronjob: cmd:<command> out:<output> err:<e>` followed by a newline, so
the record contains the command of the entry, the whole captured output and the text `e` of
the error itself.  (For a nil error the verb `%v` prints `<nil>` in the place of the text.) -/
theorem cronjobExecFailed_record (opts : Opts) (cronjob : CrontabEntry) (output e : String) :
    (∃ line, CronLogger.CronjobExecFailed opts cronjob output (some e) =
        ⟨.ok (), [.cron line]⟩
      ∧ line = "failed cronjob: cmd:" ++ cronjob.Command ++ " out:" ++ output ++ " err:" ++ e
          ++ "\n"
      ∧ cronjob.Command.data <:+: line.data
      ∧ output.data <:+: line.data
      ∧ e.data <:+: line.data)
    ∧ CronLogger.CronjobExecFailed opts cronjob output none =
        ⟨.ok (), [.cron ("failed cronjob: cmd:" ++ cronjob.Command ++ " out:" ++ output
          ++ " err:" ++ "<nil>" ++ "\n")]⟩ := by
  constructor
  · refine ⟨_, ?_, rfl, ?_, ?_, ?_⟩
    · unfold CronLogger.CronjobExecFailed CronLogger.Printf emit
      rw [logOutput_newline]
      rfl
    · exact ⟨"failed cronjob: cmd:".data,
        (" out:" ++ output ++ " err:" ++ e ++ "\n").data, by simp [String.data_append]⟩
    · exact ⟨("failed cronjob: cmd:" ++ cronjob.Command ++ " out:").data,
        (" err:" ++ e ++ "\n").data, by simp [String.data_append]⟩
    · exact ⟨("failed cronjob: cmd:" ++ cronjob.Command ++ " out:" ++ output ++ " err:").data,
        "\n".data, by simp [String.data_append]⟩
  · unfold CronLogger.CronjobExecFailed CronLogger.Printf emit
    rw [logOutput_newline]
    rfl

/-! ## Splitting a `--run-parts` argument -/

theorem span_append_cons {α : Type} (p : α → Bool) (x : α) (hx : p x = false) :
    ∀ (l1 l2 : List α), (∀ c ∈ l1, p c = true) → (l1 ++ x :: l2).span p = (l1, x :: l2)
  | [], l2, _ => by simp [List.span_eq_take_drop, hx]
  | c :: l1, l2, h => by
    have hc : p c = true := h c (List.mem_cons_self _ _)
    have ih := span_append_cons p x hx l1 l2 (fun d hd => h d (List.mem_cons_of_mem _ hd))
    rw [List.span_eq_take_drop] at ih ⊢
    simp only [List.cons_append, List.takeWhile_cons, List.dropWhile_cons, hc, if_true]
    rw [Prod.mk.injEq] at ih ⊢
    exact ⟨by rw [ih.1], ih.2⟩

theorem colon_data (a b : String) : (a ++ ":" ++ b).data = a.data ++ ':' :: b.data := by
  simp [String.data_append]

theorem splitN2_colon (a b : String) (ha : ':' ∉ a.data) :
    containsColon (a ++ ":" ++ b) = true ∧ splitN2 (a ++ ":" ++ b) = [a, b] := by
  constructor
  · simp [containsColon, colon_data]
  · unfold splitN2
    rw [colon_data, span_append_cons (fun c => c != ':') ':' (by simp) a.data b.data]
    intro c hc
    have : c ≠ ':' := fun h => ha (h ▸ hc)
    simpa using this

theorem splitN2_no_colon (rp : String) (h : ':' ∉ rp.data) : splitN2 rp = [rp] := by
  unfold splitN2
  have h2 : rp.data.span (fun c => c != ':') = (rp.data, []) := by
    rw [List.span_eq_take_drop, Prod.mk.injEq]
    constructor
    · rw [List.takeWhile_eq_self_iff]
      intro c hc
      have : c ≠ ':' := fun h3 => h (h3 ▸ hc)
      simpa using this
    · rw [List.dropWhile_eq_nil_iff]
      intro c hc
      have : c ≠ ':' := fun h3 => h (h3 ▸ hc)
      simpa using this
  rw [h2]

theorem colon_split (rp : String) (h : containsColon rp = true) :
    ∃ a b : String, rp = a ++ ":" ++ b ∧ ':' ∉ a.data := by
  have hmem : ':' ∈ rp.data := by simpa [containsColon] using h
  obtain ⟨l1, l2, hl, hnot⟩ := List.eq_append_cons_of_mem hmem
  refine ⟨String.mk l1, String.mk l2, ?_, hnot⟩
  apply String.ext
  rw [colon_data, hl]

/-! ## The run-parts blocks -/

theorem findExecutabes_res {β : Type} (w : World) (pathlist : List String)
    (mk : FileInfo → String → β) (acc : List β) :
    (findExecutabesInPathes w pathlist (fun f path ret => pure (ret ++ [mk f path])) acc).res =
      if w.statable pathlist then
        .ok (acc ++ (w.executables pathlist).map (fun fp => mk fp.1 fp.2))
      else .crash := by
  by_cases h : w.statable pathlist = true
  · rw [findExecutabes_statable w pathlist mk acc h, if_pos h]
  · rw [if_neg h]
    exact findExecutabes_not_statable w pathlist mk acc (by simpa using h)

theorem execBlock_res (w : World) (pathlist : List String) (spec user : String)
    (ret : List CrontabEntry) :
    (if pathlist.length ≥ 1 then
        findExecutabesInPathes w pathlist
          (fun _f path ret => pure (ret ++ [(⟨spec, user, path, []⟩ : CrontabEntry)])) ret
      else pure ret).res =
      if w.statable pathlist then
        .ok (ret ++ (w.executables pathlist).map (fun fp => ⟨spec, user, fp.2, []⟩))
      else .crash := by
  cases pathlist with
  | nil =>
    have h : ¬ (([] : List String).length ≥ 1) := by simp
    have hs : w.statable [] = true := rfl
    have he : w.executables [] = [] := rfl
    rw [if_neg h, hs, he]
    simp [Proc.pure_eq]
  | cons x xs =>
    have h : (x :: xs).length ≥ 1 := by simp
    rw [if_pos h]
    have h2 := findExecutabes_res w (x :: xs)
      (fun _ path => (⟨spec, user, path, []⟩ : CrontabEntry)) ret
    rw [h2]

theorem collectCrontabs_res_ok {w : World} {opts : Opts} {args : List String}
    {r : List CrontabEntry} (h : (collectCrontabs w opts args).res = .ok r) :
    ∃ r1 r2 r3 r4 r5 r6 r7,
      (collectCrontabs.args w args []).res = .ok r1
      ∧ (collectCrontabs.includeCronD w opts r1).res = .ok r2
      ∧ (collectCrontabs.runParts w opts r2).res = .ok r3
      ∧ (collectCrontabs.runParts1m w opts r3).res = .ok r4
      ∧ (collectCrontabs.runPartsHourly w opts r4).res = .ok r5
      ∧ (collectCrontabs.runPartsDaily w opts r5).res = .ok r6
      ∧ (collectCrontabs.runPartsWeekly w opts r6).res = .ok r7
      ∧ (collectCrontabs.runPartsMonthly w opts r7).res = .ok r := by
  unfold collectCrontabs at h
  obtain ⟨r1, h1, h⟩ := Proc.bind_res_ok h
  obtain ⟨r2, h2, h⟩ := Proc.bind_res_ok h
  obtain ⟨r3, h3, h⟩ := Proc.bind_res_ok h
  obtain ⟨r4, h4, h⟩ := Proc.bind_res_ok h
  obtain ⟨r5, h5, h⟩ := Proc.bind_res_ok h
  obtain ⟨r6, h6, h⟩ := Proc.bind_res_ok h
  obtain ⟨r7, h7, h⟩ := Proc.bind_res_ok h
  obtain ⟨r8, h8, h⟩ := Proc.bind_res_ok h
  simp only [Proc.pure_eq, Res.ok.injEq] at h
  subst h
  exact ⟨r1, r2, r3, r4, r5, r6, r7, h1, h2, h3, h4, h5, h6, h7, h8⟩

theorem ok_of_ite_crash {α : Type} {c : Bool} {x r : α}
    (h : (if c = true then Res.ok x else Res.crash) = Res.ok r) : r = x := by
  cases c
  · simp at h
  · simpa using h.symm

/-- C2: `findExecutabesInPathes` is one pass, in walking order, over the paths the walk of the
run-parts directories visits; at a non-directory file it invokes its callback if and only if
the file is regular, has no group-write and no other-write bit (`perm & 0022 == 0`) and has
the owner-execute bit (`perm & 0100 != 0`), and otherwise only logs why the file is ignored
(a directory is passed over, a path whose `lstat` failed ends the run in a runtime fault).
So with a callback that records its arguments the function returns, when no `lstat` fails,
exactly the visited non-directory files with these three properties. -/
theorem findExecutabes_invokes (w : World) (pathlist : List String) :
    (∀ (σ : Type) (callback : FileInfo → String → σ → Proc σ) (acc : σ),
      findExecutabesInPathes w pathlist callback acc =
        (w.found pathlist).foldlM (fun acc v =>
          match v.2 with
          | none => goPanic
          | some f =>
            if f.IsDir then pure acc
            else if f.Mode.IsRegular && (f.Mode.Perm &&& 0o022 == 0)
                && (f.Mode.Perm &&& 0o100 != 0) then
              callback f (w.absPath v.1) acc
            else ⟨.ok acc, execLog (f, w.absPath v.1)⟩) acc)
    ∧ (∀ acc : List (FileInfo × String),
      (findExecutabesInPathes w pathlist
          (fun f path acc => pure (acc ++ [(f, path)])) acc).res =
        if w.statable pathlist then
          .ok (acc ++ (w.files pathlist).filter (fun fp =>
            fp.1.Mode.IsRegular && (fp.1.Mode.Perm &&& 0o022 == 0)
              && (fp.1.Mode.Perm &&& 0o100 != 0)))
        else .crash) := by
  constructor
  · intro σ callback acc
    unfold findExecutabesInPathes
    rw [findFilesInPaths_eq]
    congr 1
    funext a v
    rcases v with ⟨path, f⟩
    cases f with
    | none => rfl
    | some f =>
      by_cases hd : f.IsDir = true
      · simp [visitStep, hd]
      · by_cases hr : f.Mode.IsRegular = true
        · by_cases h22 : (f.Mode.Perm &&& 0o022 == 0) = true
          · by_cases hx : (f.Mode.Perm &&& 0o100 != 0) = true
            · simp [visitStep, hd, FileInfo.valid, hr, h22, hx]
            · simp [visitStep, hd, FileInfo.valid, FileInfo.executable, execLog, hr, h22, hx,
                LoggerInfo.Printf, emit, Proc.bind_ok, Proc.pure_eq]
          · simp [visitStep, hd, FileInfo.valid, execLog, hr, h22]
        · simp [visitStep, hd, FileInfo.valid, execLog, hr]
  · intro acc
    rw [findExecutabes_res w pathlist (fun f path => (f, path)) acc]
    have h : (w.executables pathlist).map (fun fp => (fp.1, fp.2)) =
        (w.files pathlist).filter (fun fp =>
            fp.1.Mode.IsRegular && (fp.1.Mode.Perm &&& 0o022 == 0)
              && (fp.1.Mode.Perm &&& 0o100 != 0)) := by
      unfold World.executables
      rw [show (fun fp : FileInfo × String => (fp.1, fp.2)) = id from rfl, List.map_id]
      apply List.filter_congr
      intro fp _
      unfold FileInfo.valid FileInfo.executable
      cases fp.1.Mode.IsRegular <;> simp
    rw [h]

/-- C5: each fixed-interval block of `collectCrontabs` appends to the entries collected so far
exactly one entry per eligible executable found under its directories, in walking order, with
the default user, the path of the file as command and the spec of the flag
(`--run-parts-1min`: `@every 1m`, `--run-parts-hourly`: `@hourly`, `--run-parts-daily`:
`@daily`, `--run-parts-weekly`: `@weekly`, `--run-parts-monthly`: `@monthly`), provided the
walk meets no path whose `lstat` fails (otherwise the run ends in a runtime fault).  So
whenever `collectCrontabs` returns, its result ends with these entries. -/
theorem fixed_runParts_entries (w : World) (opts : Opts) (args : List String)
    (ret r : List CrontabEntry) (h : (collectCrontabs w opts args).res = .ok r) :
    (collectCrontabs.runParts1m w opts ret).res =
        (if w.statable opts.RunParts1m then
          .ok (ret ++ (w.executables opts.RunParts1m).map (fun fp =>
            ⟨"@every 1m", opts.DefaultUser, fp.2, []⟩))
        else .crash)
    ∧ (collectCrontabs.runPartsHourly w opts ret).res =
        (if w.statable opts.RunPartsHourly then
          .ok (ret ++ (w.executables opts.RunPartsHourly).map (fun fp =>
            ⟨"@hourly", opts.DefaultUser, fp.2, []⟩))
        else .crash)
    ∧ (collectCrontabs.runPartsDaily w opts ret).res =
        (if w.statable opts.RunPartsDaily then
          .ok (ret ++ (w.executables opts.RunPartsDaily).map (fun fp =>
            ⟨"@daily", opts.DefaultUser, fp.2, []⟩))
        else .crash)
    ∧ (collectCrontabs.runPartsWeekly w opts ret).res =
        (if w.statable opts.RunPartsWeekly then
          .ok (ret ++ (w.executables opts.RunPartsWeekly).map (fun fp =>
            ⟨"@weekly", opts.DefaultUser, fp.2, []⟩))
        else .crash)
    ∧ (collectCrontabs.runPartsMonthly w opts ret).res =
        (if w.statable opts.RunPartsMonthly then
          .ok (ret ++ (w.executables opts.RunPartsMonthly).map (fun fp =>
            ⟨"@monthly", opts.DefaultUser, fp.2, []⟩))
        else .crash)
    ∧ ∃ pre, r = pre
        ++ (w.executables opts.RunParts1m).map (fun fp =>
            ⟨"@every 1m", opts.DefaultUser, fp.2, []⟩)
        ++ (w.executables opts.RunPartsHourly).map (fun fp =>
            ⟨"@hourly", opts.DefaultUser, fp.2, []⟩)
        ++ (w.executables opts.RunPartsDaily).map (fun fp =>
            ⟨"@daily", opts.DefaultUser, fp.2, []⟩)
        ++ (w.executables opts.RunPartsWeekly).map (fun fp =>
            ⟨"@weekly", opts.DefaultUser, fp.2, []⟩)
        ++ (w.executables opts.RunPartsMonthly).map (fun fp =>
            ⟨"@monthly", opts.DefaultUser, fp.2, []⟩) := by
  have b1 := fun ret => execBlock_res w opts.RunParts1m "@every 1m" opts.DefaultUser ret
  have b2 := fun ret => execBlock_res w opts.RunPartsHourly "@hourly" opts.DefaultUser ret
  have b3 := fun ret => execBlock_res w opts.RunPartsDaily "@daily" opts.DefaultUser ret
  have b4 := fun ret => execBlock_res w opts.RunPartsWeekly "@weekly" opts.DefaultUser ret
  have b5 := fun ret => execBlock_res w opts.RunPartsMonthly "@monthly" opts.DefaultUser ret
  refine ⟨b1 ret, b2 ret, b3 ret, b4 ret, b5 ret, ?_⟩
  obtain ⟨r1, r2, r3, r4, r5, r6, r7, _, _, _, h4, h5, h6, h7, h8⟩ := collectCrontabs_res_ok h
  refine ⟨r3, ?_⟩
  have e4 := ok_of_ite_crash ((b1 r3).symm.trans h4)
  have e5 := ok_of_ite_crash ((b2 r4).symm.trans h5)
  have e6 := ok_of_ite_crash ((b3 r5).symm.trans h6)
  have e7 := ok_of_ite_crash ((b4 r6).symm.trans h7)
  have e8 := ok_of_ite_crash ((b5 r7).symm.trans h8)
  rw [e8, e7, e6, e5, e4]

theorem foldlM_res_ite {β V : Type} (g : List β → V → Proc (List β)) (c : V → Bool)
    (o : V → List β) (hg : ∀ v a, (g a v).res = if c v then .ok (a ++ o v) else .crash) :
    ∀ (xs : List V) (a : List β),
      (xs.foldlM g a).res = if xs.all c then .ok (a ++ xs.flatMap o) else .crash
  | [], a => by simp [Proc.pure_eq]
  | x :: xs, a => by
    rw [List.foldlM_cons]
    by_cases hc : c x = true
    · have h1 : (g a x).res = .ok (a ++ o x) := by rw [hg, if_pos hc]
      rw [Proc.bind_res_of_ok h1, foldlM_res_ite g c o hg xs]
      simp [hc, List.flatMap_cons]
    · have h1 : (g a x).res = .crash := by rw [hg, if_neg hc]
      have h2 := (Proc.bind_res_abort (fun b => xs.foldlM g b) h1 (fun b hb => by cases hb)).1
      obtain ⟨R2, hR2, _⟩ := h2
      rcases hx : g a x with ⟨r, t⟩
      rw [hx] at h1
      simp only at h1
      subst h1
      simp [hc]
      rfl

/-- C4: the `--run-parts` block of `collectCrontabs` treats its arguments one after the other.
An argument `a:b` whose part `a` before the first colon contains no colon (so `b` is
everything after the first colon, further colons included) contributes one entry per eligible
executable found under `b`, in walking order, with spec `@every a`, the default user and the
path of the file as command; an argument without a colon contributes nothing and does not
stop the block.  The block returns the entries collected so far followed by these
contributions, provided no walk meets a path whose `lstat` fails (then the run ends in a
runtime fault). -/
theorem runParts_entries (w : World) (opts : Opts) (ret : List CrontabEntry)
    (a b rp : String) (ha : ':' ∉ a.data) (hrp : ':' ∉ rp.data) :
    (collectCrontabs.runParts w opts ret).res =
        (if opts.RunParts.all w.runPartStatable then
          .ok (ret ++ opts.RunParts.flatMap (w.everyEntries opts))
        else .crash)
    ∧ w.everyEntries opts (a ++ ":" ++ b) =
        (w.executables [b]).map (fun fp => ⟨"@every " ++ a, opts.DefaultUser, fp.2, []⟩)
    ∧ w.runPartStatable (a ++ ":" ++ b) = w.statable [b]
    ∧ w.everyEntries opts rp = []
    ∧ w.runPartStatable rp = true := by
  refine ⟨?_, ?_, ?_, ?_, ?_⟩
  · have hfold : collectCrontabs.runParts w opts ret =
        opts.RunParts.foldlM (fun ret runPart =>
          if containsColon runPart then
            match splitN2 runPart with
            | cronSpec :: cronPath :: _ =>
              let cronPaths : List String := [] ++ [cronPath]
              findExecutabesInPathes w cronPaths (fun _f path ret =>
                pure (ret ++ [(⟨"@every " ++ cronSpec, opts.DefaultUser, path, []⟩ :
                  CrontabEntry)])) ret
            | _ => goPanic
          else do
            LoggerError.Printf
              ("Ignoring --run-parts because of missing time spec: " ++ runPart ++ "\n")
            pure ret) ret := by
      unfold collectCrontabs.runParts
      cases h : opts.RunParts with
      | nil => simp
      | cons x xs => simp
    rw [hfold]
    apply foldlM_res_ite
    intro v acc
    by_cases hc : containsColon v = true
    · obtain ⟨x, y, hxy, hx⟩ := colon_split v hc
      have hs := (splitN2_colon x y hx).2
      subst hxy
      simp only [hc, if_true, hs, World.runPartStatable, World.everyEntries]
      have h2 := findExecutabes_res w ([] ++ [y])
        (fun _ path => (⟨"@every " ++ x, opts.DefaultUser, path, []⟩ : CrontabEntry)) acc
      exact h2
    · have hv : ':' ∉ v.data := by simpa [containsColon] using hc
      have hs := splitN2_no_colon v hv
      simp [hc, hs, World.runPartStatable, World.everyEntries, LoggerError.Printf, emit,
        Proc.bind_ok, Proc.pure_eq]
  · simp [World.everyEntries, (splitN2_colon a b ha).2]
  · simp [World.runPartStatable, (splitN2_colon a b ha).2]
  · simp [World.everyEntries, splitN2_no_colon rp hrp]
  · simp [World.runPartStatable, splitN2_no_colon rp hrp]

/-! ## What `collectCrontabs` opens and logs -/

theorem Event.collecting_mono {S T : List String} (h : ∀ p ∈ S, p ∈ T) {e : Event}
    (he : e.collecting S) : e.collecting T := by
  cases e <;> first | exact he | exact h _ he

theorem Event.collecting_not_runner {S : List String} {e : Event} (he : e.collecting S) :
    e.isRunnerCall = false := by
  cases e <;> first | rfl | exact he.elim

theorem findFilesInPaths_trace {σ : Type} {K : Event → Prop} (w : World)
    (pathlist : List String) (cb : FileInfo → String → σ → Proc σ) (acc : σ)
    (hinfo : ∀ m, K (.info m))
    (hcb : ∀ fp ∈ w.files pathlist, fp.1.valid = true → ∀ a, ∀ e ∈ (cb fp.1 fp.2 a).trace, K e) :
    ∀ e ∈ (findFilesInPaths w pathlist cb acc).trace, K e := by
  rw [findFilesInPaths_eq]
  apply foldlM_trace_forall
  intro v hv a e he
  rcases v with ⟨path, f⟩
  cases f with
  | none => simp [visitStep, goPanic] at he
  | some f =>
    by_cases hd : f.IsDir = true
    · simp [visitStep, hd, Proc.pure_eq] at he
    · by_cases hval : f.valid = true
      · simp only [visitStep, hd, hval, if_true] at he
        have hmem : (f, w.absPath path) ∈ w.files pathlist := by
          unfold World.files
          rw [List.mem_filterMap]
          exact ⟨(path, some f), hv, by simp [World.toFile, hd]⟩
        exact hcb (f, w.absPath path) hmem hval a e (by simpa using he)
      · simp [visitStep, hd, hval] at he
        rw [he]
        exact hinfo _

theorem findExecutabes_trace (w : World) (pathlist : List String) (mk : String → CrontabEntry)
    (acc : List CrontabEntry) (S : List String) :
    ∀ e ∈ (findExecutabesInPathes w pathlist
        (fun _f path ret => pure (ret ++ [mk path])) acc).trace, e.collecting S := by
  unfold findExecutabesInPathes
  apply findFilesInPaths_trace
  · intro m
    trivial
  · intro fp _ _ a e he
    by_cases hx : (fp.1.Mode.IsRegular && (fp.1.Mode.Perm &&& 0o100 != 0)) = true
    · simp [hx, Proc.pure_eq] at he
    · simp [hx, LoggerInfo.Printf, emit, Proc.bind_ok, Proc.pure_eq] at he
      rw [he]
      trivial

theorem parseCrontab_trace (w : World) (path : String) (S : List String) (h : path ∈ S) :
    ∀ e ∈ (parseCrontab w path).trace, e.collecting S := by
  intro e he
  cases hc : w.crontab path with
  | some es =>
    rw [parseCrontab_of_some hc] at he
    simp at he
    rw [he]
    exact h
  | none =>
    obtain ⟨msg, hm⟩ := parseCrontab_of_none hc
    rw [hm] at he
    simp at he
    rcases he with he | he
    · rw [he]
      exact h
    · rw [he]
      trivial

/-! ## The crontab blocks -/

theorem arg_abs_error {w : World} {arg err : String} (ret : List CrontabEntry)
    (hA : w.Abs arg = .error err) :
    collectCrontabs.arg w ret arg =
      ⟨.exit 1, [.error (logOutput ("Invalid file: " ++ err))]⟩ := by
  unfold collectCrontabs.arg
  simp only [hA]
  rfl

theorem arg_lstat_error {w : World} {arg p err : String} (ret : List CrontabEntry)
    (hA : w.Abs arg = .ok p) (hL : w.Lstat p = .error err) :
    collectCrontabs.arg w ret arg =
      ⟨.exit 1, [.error (logOutput ("File stats failed: " ++ err))]⟩ := by
  unfold collectCrontabs.arg
  simp only [hA, hL]
  rfl

theorem arg_valid {w : World} {arg p : String} {f : FileInfo} (ret : List CrontabEntry)
    (hA : w.Abs arg = .ok p) (hL : w.Lstat p = .ok f) (hv : f.valid = true) :
    collectCrontabs.arg w ret arg = parseCrontab w p >>= fun es => pure (ret ++ es) := by
  unfold collectCrontabs.arg
  simp only [hA, hL]
  simp [checkIfFileIsValid_eq, hv, Proc.bind_ok]

theorem arg_invalid {w : World} {arg p : String} {f : FileInfo} (ret : List CrontabEntry)
    (hA : w.Abs arg = .ok p) (hL : w.Lstat p = .ok f) (hv : f.valid = false) :
    collectCrontabs.arg w ret arg = ⟨.ok ret, [.info (logOutput (ignoredMsg f p))]⟩ := by
  unfold collectCrontabs.arg
  simp only [hA, hL]
  simp [checkIfFileIsValid_eq, hv, Proc.bind_ok, Proc.pure_eq]

theorem arg_res_ok (w : World) (ret r : List CrontabEntry) (arg : String)
    (h : (collectCrontabs.arg w ret arg).res = .ok r) :
    r = ret ++ ((w.argSource arg).map w.entriesOf).getD [] := by
  cases hA : w.Abs arg with
  | error err =>
    rw [arg_abs_error ret hA] at h
    cases h
  | ok p =>
    cases hL : w.Lstat p with
    | error err =>
      rw [arg_lstat_error ret hA hL] at h
      cases h
    | ok f =>
      cases hv : f.valid with
      | true =>
        rw [arg_valid ret hA hL hv] at h
        cases hc : w.crontab p with
        | some es =>
          rw [parseCrontab_of_some hc, Proc.bind_ok] at h
          simp [Proc.pure_eq] at h
          simp [World.argSource, hA, hL, hv, World.entriesOf, hc, h]
        | none =>
          obtain ⟨msg, hm⟩ := parseCrontab_of_none hc
          rw [hm] at h
          cases h
      | false =>
        rw [arg_invalid ret hA hL hv] at h
        simp at h
        simp [World.argSource, hA, hL, hv, h]

theorem arg_trace (w : World) (ret : List CrontabEntry) (arg : String) (S : List String)
    (hS : ∀ p, w.argSource arg = some p → p ∈ S) :
    ∀ e ∈ (collectCrontabs.arg w ret arg).trace, e.collecting S := by
  unfold World.argSource at hS
  cases hA : w.Abs arg with
  | error err =>
    rw [arg_abs_error ret hA]
    intro e he
    simp at he
    rw [he]
    trivial
  | ok p =>
    cases hL : w.Lstat p with
    | error err =>
      rw [arg_lstat_error ret hA hL]
      intro e he
      simp at he
      rw [he]
      trivial
    | ok f =>
      cases hv : f.valid with
      | true =>
        rw [arg_valid ret hA hL hv]
        apply Proc.bind_trace_forall
        · exact parseCrontab_trace w p S (hS p (by simp [hA, hL, hv]))
        · intro a e he
          simp [Proc.pure_eq] at he
      | false =>
        rw [arg_invalid ret hA hL hv]
        intro e he
        simp at he
        rw [he]
        trivial

theorem flatMap_filterMap {α β γ : Type} (f : α → Option β) (g : β → List γ) :
    ∀ l : List α, l.flatMap (fun x => ((f x).map g).getD []) = (l.filterMap f).flatMap g
  | [] => rfl
  | x :: l => by
    cases h : f x with
    | none => simp [List.flatMap_cons, List.filterMap_cons, h, flatMap_filterMap f g l]
    | some y => simp [List.flatMap_cons, List.filterMap_cons, h, flatMap_filterMap f g l]

theorem args_res_ok (w : World) (args : List String) (ret r : List CrontabEntry)
    (h : (collectCrontabs.args w args ret).res = .ok r) :
    r = ret ++ (w.argSources args).flatMap w.entriesOf := by
  unfold collectCrontabs.args at h
  have h2 := foldlM_ok_only (collectCrontabs.arg w)
    (fun arg => ((w.argSource arg).map w.entriesOf).getD []) args ret r
    (fun v _ a r hr => arg_res_ok w a r v hr) h
  rw [h2, flatMap_filterMap]
  rfl

theorem args_trace (w : World) (args : List String) (ret : List CrontabEntry) :
    ∀ e ∈ (collectCrontabs.args w args ret).trace, e.collecting (w.argSources args) := by
  unfold collectCrontabs.args
  apply foldlM_trace_forall
  intro v hv a
  apply arg_trace
  intro p hp
  unfold World.argSources
  rw [List.mem_filterMap]
  exact ⟨v, hv, hp⟩

theorem includeCronD_eq (w : World) (opts : Opts) (ret : List CrontabEntry) :
    collectCrontabs.includeCronD w opts ret =
      findFilesInPaths w opts.IncludeCronD (fun _f path ret =>
        parseCrontab w path >>= fun entries => pure (ret ++ entries)) ret := by
  unfold collectCrontabs.includeCronD
  cases h : opts.IncludeCronD with
  | nil => simp [findFilesInPaths]
  | cons x xs => simp

theorem includeCronD_trace (w : World) (opts : Opts) (ret : List CrontabEntry) :
    ∀ e ∈ (collectCrontabs.includeCronD w opts ret).trace,
      e.collecting (w.includeSources opts) := by
  rw [includeCronD_eq]
  apply findFilesInPaths_trace
  · intro m
    trivial
  · intro fp hfp hv a
    apply Proc.bind_trace_forall
    · apply parseCrontab_trace
      unfold World.includeSources
      rw [List.mem_map]
      exact ⟨fp, by simp [hfp, hv], rfl⟩
    · intro es e he
      simp [Proc.pure_eq] at he

theorem includeCronD_res_ok (w : World) (opts : Opts) (ret r : List CrontabEntry)
    (h : (collectCrontabs.includeCronD w opts ret).res = .ok r) :
    r = ret ++ (w.includeSources opts).flatMap w.entriesOf := by
  rw [includeCronD_eq, findFilesInPaths_eq] at h
  by_cases hs : (w.found opts.IncludeCronD).all (fun v => v.2.isSome) = true
  · rw [foldlM_visitStep_statable w _ _ _ hs] at h
    have h2 := foldlM_ok_only _
      (fun fp : FileInfo × String => if fp.1.valid then w.entriesOf fp.2 else [])
      _ ret r ?_ h
    · rw [h2]
      unfold World.includeSources World.files
      congr 1
      generalize (w.found opts.IncludeCronD).filterMap w.toFile = l
      induction l with
      | nil => rfl
      | cons x l ih =>
        by_cases hx : x.1.valid = true <;>
          simp [List.flatMap_cons, List.filter_cons, hx, ih]
    · intro fp _ a r2 hr
      by_cases hv : fp.1.valid = true
      · simp only [fileStep, hv, if_true] at hr ⊢
        cases hc : w.crontab fp.2 with
        | some es =>
          rw [parseCrontab_of_some hc, Proc.bind_ok] at hr
          simp [Proc.pure_eq] at hr
          simp [World.entriesOf, hc, hr]
        | none =>
          obtain ⟨msg, hm⟩ := parseCrontab_of_none hc
          rw [hm] at hr
          cases hr
      · simp [fileStep, hv] at hr ⊢
        exact hr.symm
  · exact absurd h (foldlM_visitStep_not_ok w _ _ ret (by simpa using hs) r)

theorem execBlock_trace (w : World) (pathlist : List String) (spec user : String)
    (ret : List CrontabEntry) (S : List String) :
    ∀ e ∈ (if pathlist.length ≥ 1 then
        findExecutabesInPathes w pathlist
          (fun _f path ret => pure (ret ++ [(⟨spec, user, path, []⟩ : CrontabEntry)])) ret
      else pure ret).trace, e.collecting S := by
  by_cases h : pathlist.length ≥ 1
  · rw [if_pos h]
    exact findExecutabes_trace w pathlist (fun path => ⟨spec, user, path, []⟩) ret S
  · rw [if_neg h]
    intro e he
    simp [Proc.pure_eq] at he

theorem runParts_trace (w : World) (opts : Opts) (ret : List CrontabEntry) (S : List String) :
    ∀ e ∈ (collectCrontabs.runParts w opts ret).trace, e.collecting S := by
  unfold collectCrontabs.runParts
  by_cases h : opts.RunParts.length ≥ 1
  · rw [if_pos h]
    apply foldlM_trace_forall
    intro v _ a
    by_cases hc : containsColon v = true
    · simp only [hc, if_true]
      split
      · exact findExecutabes_trace w _ _ a S
      · intro e he
        simp [goPanic] at he
    · simp only [hc]
      intro e he
      simp [LoggerError.Printf, emit, Proc.bind_ok, Proc.pure_eq] at he
      rw [he]
      trivial
  · rw [if_neg h]
    intro e he
    simp [Proc.pure_eq] at he

theorem collectCrontabs_trace (w : World) (opts : Opts) (args : List String) :
    ∀ e ∈ (collectCrontabs w opts args).trace,
      e.collecting (w.argSources args ++ w.includeSources opts) := by
  unfold collectCrontabs
  apply Proc.bind_trace_forall
  · intro e he
    exact Event.collecting_mono (fun p hp => List.mem_append_left _ hp) (args_trace w args [] e he)
  intro r1
  apply Proc.bind_trace_forall
  · intro e he
    exact Event.collecting_mono (fun p hp => List.mem_append_right _ hp)
      (includeCronD_trace w opts r1 e he)
  intro r2
  apply Proc.bind_trace_forall (runParts_trace w opts r2 _)
  intro r3
  apply Proc.bind_trace_forall (execBlock_trace w _ _ _ r3 _)
  intro r4
  apply Proc.bind_trace_forall (execBlock_trace w _ _ _ r4 _)
  intro r5
  apply Proc.bind_trace_forall (execBlock_trace w _ _ _ r5 _)
  intro r6
  apply Proc.bind_trace_forall (execBlock_trace w _ _ _ r6 _)
  intro r7
  apply Proc.bind_trace_forall (execBlock_trace w _ _ _ r7 _)
  intro r8 e he
  simp [Proc.pure_eq] at he

/-- C1: `checkIfFileIsValid` returns true exactly for a regular file whose permission bits
satisfy `perm & 0022 == 0`.  Every path `collectCrontabs` opens for parsing is the path of an
explicitly named file or of a file found under an `--include` directory for which the check
returned true.  The entries the two crontab blocks add are the entries parsed from the files
that pass the check, in order, and nothing else: a file failing the check contributes no
entry. -/
theorem crontabs_checked (w : World) (opts : Opts) (args : List String)
    (ret : List CrontabEntry) :
    (∀ f path, (checkIfFileIsValid f path).res =
        .ok (f.Mode.IsRegular && (f.Mode.Perm &&& 0o022 == 0)))
    ∧ (∀ p, Event.Open p ∈ (collectCrontabs w opts args).trace →
        p ∈ w.argSources args ++ w.includeSources opts)
    ∧ (∀ r, (collectCrontabs.args w args ret).res = .ok r →
        r = ret ++ (w.argSources args).flatMap w.entriesOf)
    ∧ (∀ r, (collectCrontabs.includeCronD w opts ret).res = .ok r →
        r = ret ++ (w.includeSources opts).flatMap w.entriesOf) := by
  refine ⟨?_, ?_, ?_, ?_⟩
  · intro f path
    rw [checkIfFileIsValid_eq]
    rfl
  · intro p hp
    exact collectCrontabs_trace w opts args _ hp
  · intro r hr
    exact args_res_ok w args ret r hr
  · intro r hr
    exact includeCronD_res_ok w opts ret r hr

/-! ## Fatal errors -/

theorem Proc.fatal_bind_left {α β : Type} {x : Proc α} (f : α → Proc β) (h : x.fatal) :
    (x >>= f).fatal := by
  rcases x with ⟨r, t⟩
  obtain ⟨hr, ht⟩ := h
  simp only at hr
  subst hr
  exact ⟨rfl, ht⟩

theorem Proc.fatal_bind_right {α β : Type} {x : Proc α} {f : α → Proc β} {a : α}
    (hx : x.res = .ok a) (h : (f a).fatal) : (x >>= f).fatal := by
  rw [Proc.bind_of_ok hx]
  obtain ⟨hr, t, msg, ht⟩ := h
  exact ⟨hr, x.trace ++ t, msg, by simp [ht]⟩

theorem foldlM_fatal {σ V : Type} (g : σ → V → Proc σ) :
    ∀ (xs : List V) (a : σ),
      (∀ v ∈ xs, ∀ a, (∃ r, (g a v).res = .ok r) ∨ (g a v).fatal) →
      (∃ v ∈ xs, ∀ a, (g a v).fatal) → (xs.foldlM g a).fatal
  | [], a, _, hex => by
    obtain ⟨v, hv, _⟩ := hex
    cases hv
  | x :: xs, a, h, hex => by
    rw [List.foldlM_cons]
    rcases h x (List.mem_cons_self _ _) a with ⟨b, hb⟩ | hbad
    · apply Proc.fatal_bind_right hb
      apply foldlM_fatal g xs b (fun v hv => h v (List.mem_cons_of_mem _ hv))
      obtain ⟨v, hv, hvR⟩ := hex
      rcases List.mem_cons.1 hv with rfl | hv2
      · have := (hvR a).1
        rw [hb] at this
        cases this
      · exact ⟨v, hv2, hvR⟩
    · exact Proc.fatal_bind_left _ hbad

theorem parseCrontab_fatal {w : World} {path : String} (h : w.crontab path = none) :
    (parseCrontab w path).fatal := by
  obtain ⟨msg, hm⟩ := parseCrontab_of_none h
  rw [hm]
  exact ⟨rfl, [.Open path], msg, rfl⟩

theorem parseCrontab_ok_or_fatal (w : World) (path : String) :
    (∃ es, w.crontab path = some es ∧ parseCrontab w path = ⟨.ok es, [.Open path]⟩)
      ∨ (w.crontab path = none ∧ (parseCrontab w path).fatal) := by
  cases hc : w.crontab path with
  | some es => exact Or.inl ⟨es, rfl, parseCrontab_of_some hc⟩
  | none => exact Or.inr ⟨rfl, parseCrontab_fatal hc⟩

theorem initArgParser_eq {w : World} {opts : Opts} {args : List String}
    (hp : w.ParseArgs = .ok (opts, args)) (hv : opts.ShowVersion = false)
    (hh : opts.ShowHelp = false) : initArgParser w = pure (opts, args) := by
  unfold initArgParser
  simp [hp, hv, hh]

theorem forM_emit (k : CrontabEntry → Event) :
    ∀ l : List CrontabEntry, l.forM (fun e => emit (k e)) = ⟨.ok (), l.map k⟩
  | [] => rfl
  | x :: l => by
    show (emit (k x) >>= fun _ => l.forM (fun e => emit (k e))) = _
    rw [forM_emit k l]
    rfl

theorem register_eq (n : Int) (b : Bool) (entries : List CrontabEntry) :
    (do
      emit (.GOMAXPROCS n)
      NewRunner
      entries.forM (fun crontabEntry =>
        if b then
          Runner.AddWithUser crontabEntry.Spec crontabEntry.User crontabEntry.Command
        else
          Runner.Add crontabEntry.Spec crontabEntry.Command)
      registerRunnerShutdown
      Runner.Start
      block : Proc Unit) =
      ⟨.blocked, [Event.GOMAXPROCS n, .NewRunner] ++
        entries.map (fun e =>
          if b then Event.AddWithUser e.Spec e.User e.Command
          else Event.Add e.Spec e.Command) ++ [.registerRunnerShutdown, .Start]⟩ := by
  have h : (fun crontabEntry : CrontabEntry =>
        if b then
          Runner.AddWithUser crontabEntry.Spec crontabEntry.User crontabEntry.Command
        else
          Runner.Add crontabEntry.Spec crontabEntry.Command) =
      fun e => emit (if b then Event.AddWithUser e.Spec e.User e.Command
          else Event.Add e.Spec e.Command) := by
    funext e
    cases b <;> rfl
  rw [h, forM_emit]
  simp [emit, block, NewRunner, Runner.Start, registerRunnerShutdown, Proc.bind_ok]

theorem main_eq {w : World} {opts : Opts} {args : List String} {u : User}
    (hp : w.ParseArgs = .ok (opts, args)) (hv : opts.ShowVersion = false)
    (hh : opts.ShowHelp = false) (hu : w.Current = .ok u) :
    main w =
      (⟨.ok (), [Event.info "Starting version 0.1.0\n"] ++
          (if u.Uid = "0" then []
            else [.error
              "WARNING: go-crond is NOT running as root, disabling user switching\n"])⟩ :
        Proc Unit) >>= fun _ =>
      collectCrontabs w opts args >>= fun entries =>
        ⟨.blocked, [Event.GOMAXPROCS opts.Processes, .NewRunner] ++
          entries.map (fun e =>
            if u.Uid = "0" then Event.AddWithUser e.Spec e.User e.Command
            else Event.Add e.Spec e.Command) ++ [.registerRunnerShutdown, .Start]⟩ := by
  unfold main initLogger
  rw [pure_bind, initArgParser_eq hp hv hh]
  simp only [pure_bind, hu]
  have hstart : LoggerInfo.Printf ("Starting version " ++ Version) =
      ⟨.ok (), [.info "Starting version 0.1.0\n"]⟩ := by decide
  have hwarn : LoggerError.Printf
      "WARNING: go-crond is NOT running as root, disabling user switching\n" =
      ⟨.ok (), [.error
        "WARNING: go-crond is NOT running as root, disabling user switching\n"]⟩ := by decide
  rw [hstart, hwarn]
  by_cases huid : u.Uid = "0"
  · have hb : (u.Uid != "0") = false := by simp [huid]
    have hreg := fun entries => register_eq opts.Processes true entries
    simp only [if_true] at hreg
    simp only [hb, Bool.false_eq_true, if_false, if_true, if_pos huid, hreg, Proc.bind_ok,
      List.append_nil]
  · have hb : (u.Uid != "0") = true := by simp [huid]
    have hreg := fun entries => register_eq opts.Processes false entries
    simp only [Bool.false_eq_true, if_false] at hreg
    simp only [hb, Bool.false_eq_true, if_false, if_true, if_neg huid, hreg, Proc.bind_ok,
      List.append_assoc]

theorem Proc.fatal_iff {α : Type} (x : Proc α) :
    x.fatal ↔ ∃ t msg, x = ⟨.exit 1, t ++ [.error msg]⟩ := by
  rcases x with ⟨r, tr⟩
  constructor
  · rintro ⟨hr, t, msg, ht⟩
    simp only at hr ht
    subst hr ht
    exact ⟨t, msg, rfl⟩
  · rintro ⟨t, msg, h⟩
    rw [h]
    exact ⟨rfl, t, msg, rfl⟩

theorem flatMap_valid (w : World) (l : List (FileInfo × String)) :
    l.flatMap (fun fp => if fp.1.valid then w.entriesOf fp.2 else []) =
      ((l.filter (fun fp => fp.1.valid)).map (fun fp => fp.2)).flatMap w.entriesOf := by
  induction l with
  | nil => rfl
  | cons x l ih =>
    by_cases hx : x.1.valid = true <;>
      simp [List.flatMap_cons, List.filter_cons, hx, ih]

theorem flatMap_singleton_map {α β : Type} (k : α → β) :
    ∀ l : List α, l.flatMap (fun x => [k x]) = l.map k
  | [] => rfl
  | x :: l => by simp [List.flatMap_cons, flatMap_singleton_map k l]

theorem mem_includeSources {w : World} {opts : Opts} {fp : FileInfo × String}
    (hfp : fp ∈ w.files opts.IncludeCronD) (hv : fp.1.valid = true) :
    fp.2 ∈ w.includeSources opts := by
  unfold World.includeSources
  rw [List.mem_map]
  exact ⟨fp, by simp [hfp, hv], rfl⟩

theorem includeCronD_files (w : World) (opts : Opts) (ret : List CrontabEntry)
    (hs : w.statable opts.IncludeCronD = true) :
    collectCrontabs.includeCronD w opts ret =
      (w.files opts.IncludeCronD).foldlM (fileStep (fun _f path ret =>
        parseCrontab w path >>= fun entries => pure (ret ++ entries))) ret := by
  rw [includeCronD_eq, findFilesInPaths_eq, foldlM_visitStep_statable w _ _ _ hs]
  rfl

/-- C3: when flag parsing succeeds without `--version` and `--help`, `user.Current()` returns
a user and `collectCrontabs` returns the entries `entries`, `main` does exactly this up to the
point where it blocks: it logs the start message, logs the warning when the uid is not `0`,
collects, creates the runner, registers every collected entry exactly once and in collected
order (with `AddWithUser(spec, user, command)` when the uid is `0`, with `Add(spec, command)`
and never with a user otherwise), and only then calls `Start`. -/
theorem main_registers (w : World) (opts : Opts) (args : List String) (u : User)
    (entries : List CrontabEntry) (t : List Event)
    (hp : w.ParseArgs = .ok (opts, args)) (hv : opts.ShowVersion = false)
    (hh : opts.ShowHelp = false) (hu : w.Current = .ok u)
    (hc : collectCrontabs w opts args = ⟨.ok entries, t⟩) :
    main w = ⟨.blocked,
        [Event.info "Starting version 0.1.0\n"]
          ++ (if u.Uid = "0" then []
              else [.error
                "WARNING: go-crond is NOT running as root, disabling user switching\n"])
          ++ t
          ++ [.GOMAXPROCS opts.Processes, .NewRunner]
          ++ entries.map (fun e =>
              if u.Uid = "0" then Event.AddWithUser e.Spec e.User e.Command
              else Event.Add e.Spec e.Command)
          ++ [.registerRunnerShutdown, .Start]⟩
    ∧ (main w).trace.filter Event.isRunnerCall =
        [Event.NewRunner]
          ++ entries.map (fun e =>
              if u.Uid = "0" then Event.AddWithUser e.Spec e.User e.Command
              else Event.Add e.Spec e.Command)
          ++ [.Start] := by
  have hmain : main w = ⟨.blocked,
        [Event.info "Starting version 0.1.0\n"]
          ++ (if u.Uid = "0" then []
              else [.error
                "WARNING: go-crond is NOT running as root, disabling user switching\n"])
          ++ t
          ++ [.GOMAXPROCS opts.Processes, .NewRunner]
          ++ entries.map (fun e =>
              if u.Uid = "0" then Event.AddWithUser e.Spec e.User e.Command
              else Event.Add e.Spec e.Command)
          ++ [.registerRunnerShutdown, .Start]⟩ := by
    rw [main_eq hp hv hh hu, hc]
    simp [Proc.bind_ok]
  refine ⟨hmain, ?_⟩
  have ht : t.filter Event.isRunnerCall = [] := by
    rw [List.filter_eq_nil_iff]
    intro e he
    have h1 := collectCrontabs_trace w opts args e (by rw [hc]; exact he)
    simp [Event.collecting_not_runner h1]
  have hreg : (entries.map (fun e =>
      if u.Uid = "0" then Event.AddWithUser e.Spec e.User e.Command
      else Event.Add e.Spec e.Command)).filter Event.isRunnerCall =
      entries.map (fun e =>
      if u.Uid = "0" then Event.AddWithUser e.Spec e.User e.Command
      else Event.Add e.Spec e.Command) := by
    rw [List.filter_eq_self]
    intro e he
    rw [List.mem_map] at he
    obtain ⟨x, _, rfl⟩ := he
    by_cases h0 : u.Uid = "0" <;> simp [h0, Event.isRunnerCall]
  rw [hmain]
  simp only [List.filter_append, ht, hreg]
  by_cases h0 : u.Uid = "0" <;> simp [h0, Event.isRunnerCall]

/-- C9 (amended): suppose the walk of the `--include` directories meets no path whose `lstat`
fails.  A discovered file that fails the check is reported with one `LoggerInfo` record and
omitted, and collection goes on: when every discovered file that passes the check can be
opened and parsed, the `--include` block returns the entries collected before it followed by
the entries of the passing files, in walking order, having opened the passing files and
logged one record per rejected file.  When some discovered file that passes the check cannot
be opened or parsed, the block ends the process with exit status 1 after a `LoggerError`
record, and so does `collectCrontabs` whenever its argument block returned. -/
theorem include_discovery (w : World) (opts : Opts) (args : List String)
    (ret : List CrontabEntry) (hs : w.statable opts.IncludeCronD = true) :
    ((∀ p ∈ w.includeSources opts, (w.crontab p).isSome = true) →
      collectCrontabs.includeCronD w opts ret =
        ⟨.ok (ret ++ (w.includeSources opts).flatMap w.entriesOf),
          (w.files opts.IncludeCronD).map (fun fp =>
            if fp.1.valid then Event.Open fp.2
            else Event.info (logOutput (ignoredMsg fp.1 fp.2)))⟩)
    ∧ ((∃ p ∈ w.includeSources opts, w.crontab p = none) →
      (∃ t msg, collectCrontabs.includeCronD w opts ret = ⟨.exit 1, t ++ [.error msg]⟩)
      ∧ ∀ r1, (collectCrontabs.args w args []).res = .ok r1 →
          (collectCrontabs w opts args).res = .exit 1) := by
  constructor
  · intro hall
    rw [includeCronD_files w opts ret hs]
    rw [foldlM_all_ok _ (fun fp => if fp.1.valid then w.entriesOf fp.2 else [])
      (fun fp => [if fp.1.valid then Event.Open fp.2
            else Event.info (logOutput (ignoredMsg fp.1 fp.2))])]
    · rw [flatMap_valid, flatMap_singleton_map]
      rfl
    · intro fp hfp a
      by_cases hv : fp.1.valid = true
      · have hsome := hall fp.2 (mem_includeSources hfp hv)
        cases hc : w.crontab fp.2 with
        | none => simp [hc] at hsome
        | some es =>
          simp [fileStep, hv, parseCrontab_of_some hc, Proc.bind_ok, Proc.pure_eq,
            World.entriesOf, hc]
      · simp [fileStep, hv]
  · rintro ⟨p, hp, hnone⟩
    have hfatal : ∀ r, (collectCrontabs.includeCronD w opts r).fatal := by
      intro r
      rw [includeCronD_files w opts r hs]
      apply foldlM_fatal
      · intro fp _ a
        by_cases hv : fp.1.valid = true
        · simp only [fileStep, hv, if_true]
          rcases parseCrontab_ok_or_fatal w fp.2 with ⟨es, _, he⟩ | ⟨_, hf⟩
          · rw [he]
            exact Or.inl ⟨a ++ es, rfl⟩
          · exact Or.inr (Proc.fatal_bind_left _ hf)
        · exact Or.inl ⟨a, by simp [fileStep, hv]⟩
      · unfold World.includeSources at hp
        rw [List.mem_map] at hp
        obtain ⟨fp, hfp, rfl⟩ := hp
        rw [List.mem_filter] at hfp
        refine ⟨fp, hfp.1, fun a => ?_⟩
        have hv : fp.1.valid = true := by simpa using hfp.2
        simp only [fileStep, hv, if_true]
        exact Proc.fatal_bind_left _ (parseCrontab_fatal hnone)
    refine ⟨(Proc.fatal_iff _).1 (hfatal ret), ?_⟩
    intro r1 hr1
    unfold collectCrontabs
    exact (Proc.fatal_bind_right hr1 (Proc.fatal_bind_left _ (hfatal r1))).1

end GoCrond

namespace GoCrond

theorem sample_collect (uid : String) :
    collectCrontabs (sampleWorld uid fullOpts ["/etc/crontab"]) fullOpts ["/etc/crontab"] =
      ⟨.ok [⟨"@daily", "root", "run /etc/crontab", []⟩,
          ⟨"@daily", "root", "run /etc/cron.d/backup", []⟩,
          ⟨"@every 5m", "root", "/srv/jobs/lib/helper", []⟩,
          ⟨"@every 5m", "root", "/srv/jobs/sync", []⟩,
          ⟨"@hourly", "root", "/etc/cron.hourly/rotate", []⟩],
        [.Open "/etc/crontab", .Open "/etc/cron.d/backup",
          .info "Ignoring file with wrong modes (not xx22) /etc/cron.d/draft\n",
          .error "Ignoring --run-parts because of missing time spec: /srv/jobs\n",
          .info "Ignoring non exectuable file /etc/cron.hourly/notes\n"]⟩ := by
  rfl

/-- Witness of C3: an ordinary user and the superuser on the sample file system. -/
theorem main_registers_witness :
    main (sampleWorld "1000" fullOpts ["/etc/crontab"]) = ⟨.blocked,
        [.info "Starting version 0.1.0\n",
          .error "WARNING: go-crond is NOT running as root, disabling user switching\n",
          .Open "/etc/crontab", .Open "/etc/cron.d/backup",
          .info "Ignoring file with wrong modes (not xx22) /etc/cron.d/draft\n",
          .error "Ignoring --run-parts because of missing time spec: /srv/jobs\n",
          .info "Ignoring non exectuable file /etc/cron.hourly/notes\n",
          .GOMAXPROCS 1, .NewRunner,
          .Add "@daily" "run /etc/crontab",
          .Add "@daily" "run /etc/cron.d/backup",
          .Add "@every 5m" "/srv/jobs/lib/helper",
          .Add "@every 5m" "/srv/jobs/sync",
          .Add "@hourly" "/etc/cron.hourly/rotate",
          .registerRunnerShutdown, .Start]⟩
    ∧ (main (sampleWorld "0" fullOpts ["/etc/crontab"])).trace.filter Event.isRunnerCall =
        [.NewRunner,
          .AddWithUser "@daily" "root" "run /etc/crontab",
          .AddWithUser "@daily" "root" "run /etc/cron.d/backup",
          .AddWithUser "@every 5m" "root" "/srv/jobs/lib/helper",
          .AddWithUser "@every 5m" "root" "/srv/jobs/sync",
          .AddWithUser "@hourly" "root" "/etc/cron.hourly/rotate",
          .Start] :=
  ⟨(main_registers (sampleWorld "1000" fullOpts ["/etc/crontab"]) fullOpts ["/etc/crontab"]
      ⟨"1000"⟩ _ _ rfl rfl rfl rfl (sample_collect "1000")).1,
    (main_registers (sampleWorld "0" fullOpts ["/etc/crontab"]) fullOpts ["/etc/crontab"]
      ⟨"0"⟩ _ _ rfl rfl rfl rfl (sample_collect "0")).2⟩

/-- Witness of C4: `5m:/srv/jobs` yields the two executables below `/srv/jobs` under
`@every 5m`; the colon-free `/srv/jobs` yields nothing. -/
theorem runParts_entries_witness :
    (':' ∉ "5m".data ∧ ':' ∉ "/srv/jobs".data)
    ∧ (collectCrontabs.runParts (sampleWorld "0" fullOpts []) fullOpts []).res =
        .ok [⟨"@every 5m", "root", "/srv/jobs/lib/helper", []⟩,
          ⟨"@every 5m", "root", "/srv/jobs/sync", []⟩]
    ∧ (sampleWorld "0" fullOpts []).everyEntries fullOpts "/srv/jobs" = [] :=
  ⟨⟨by decide, by decide⟩,
    (runParts_entries (sampleWorld "0" fullOpts []) fullOpts [] "5m" "/srv/jobs" "/srv/jobs"
      (by decide) (by decide)).1.trans (by decide),
    (runParts_entries (sampleWorld "0" fullOpts []) fullOpts [] "5m" "/srv/jobs" "/srv/jobs"
      (by decide) (by decide)).2.2.2.1⟩

/-- Witness of C5: the hourly directory of the sample file system. -/
theorem fixed_runParts_entries_witness :
    (collectCrontabs.runPartsHourly (sampleWorld "0" fullOpts ["/etc/crontab"]) fullOpts []).res =
        .ok [⟨"@hourly", "root", "/etc/cron.hourly/rotate", []⟩]
    ∧ (collectCrontabs.runPartsDaily (sampleWorld "0" fullOpts ["/etc/crontab"]) fullOpts []).res =
        .ok [] :=
  ⟨(fixed_runParts_entries (sampleWorld "0" fullOpts ["/etc/crontab"]) fullOpts
      ["/etc/crontab"] [] _ (congrArg Proc.res (sample_collect "0"))).2.1.trans (by decide),
    (fixed_runParts_entries (sampleWorld "0" fullOpts ["/etc/crontab"]) fullOpts
      ["/etc/crontab"] [] _ (congrArg Proc.res (sample_collect "0"))).2.2.1.trans (by decide)⟩

/-- Counterexample to C9 as stated: `/etc/cron.locked/private` is found under an `--include`
directory, passes the check and cannot be opened.  The process exits with status 1, and the
entry of the readable `/etc/crontab` is not returned. -/
theorem discovered_unreadable_file_aborts :
    (sampleWorld "1000" lockedOpts ["/etc/crontab"]).Open "/etc/cron.locked/private" =
        .error "permission denied"
    ∧ collectCrontabs (sampleWorld "1000" lockedOpts ["/etc/crontab"]) lockedOpts
        ["/etc/crontab"] =
        ⟨.exit 1, [.Open "/etc/crontab", .Open "/etc/cron.locked/private",
          .error "crontab path: /etc/cron.locked/private err:permission denied\n"]⟩
    ∧ main (sampleWorld "1000" lockedOpts ["/etc/crontab"]) = ⟨.exit 1,
        [.info "Starting version 0.1.0\n",
          .error "WARNING: go-crond is NOT running as root, disabling user switching\n",
          .Open "/etc/crontab",
          .Open "/etc/cron.locked/private",
          .error "crontab path: /etc/cron.locked/private err:permission denied\n"]⟩ :=
  ⟨rfl, by decide, by decide⟩

/-- Witness of C9 (amended): `/etc/cron.d` holds one file that passes the check and one that
is rejected; `/etc/cron.locked` holds a passing file that cannot be opened. -/
theorem include_discovery_witness :
    collectCrontabs.includeCronD (sampleWorld "0" fullOpts []) fullOpts
        [⟨"@reboot", "root", "start", []⟩] =
      ⟨.ok [⟨"@reboot", "root", "start", []⟩, ⟨"@daily", "root", "run /etc/cron.d/backup", []⟩],
        [.Open "/etc/cron.d/backup",
          .info "Ignoring file with wrong modes (not xx22) /etc/cron.d/draft\n"]⟩
    ∧ (collectCrontabs (sampleWorld "1000" lockedOpts ["/etc/crontab"]) lockedOpts
        ["/etc/crontab"]).res = .exit 1 :=
  ⟨((include_discovery (sampleWorld "0" fullOpts []) fullOpts []
      [⟨"@reboot", "root", "start", []⟩] (by decide)).1 (by decide)).trans (by decide),
    ((include_discovery (sampleWorld "1000" lockedOpts ["/etc/crontab"]) lockedOpts
      ["/etc/crontab"] [] (by decide)).2
        ⟨"/etc/cron.locked/private", by decide, by decide⟩).2
      [⟨"@daily", "root", "run /etc/crontab", []⟩] (by decide)⟩

/-- C10 (code defect): a listed path that does not exist makes `findFilesInPaths` end in a
runtime fault.  `filepath.Walk` hands the visitor a nil file info together with the error of
`os.Lstat`; the visitor never looks at the error and calls `f.IsDir()` on the nil value.
Through `--include` the fault takes down `collectCrontabs` and `main`. -/
theorem findFilesInPaths_missing_path_faults :
    (sampleWorld "0" missingOpts []).Lstat "/etc/cron.weekly" =
        .error "no such file or directory"
    ∧ findFilesInPaths (sampleWorld "0" missingOpts []) ["/etc/cron.weekly"]
        (fun _f path acc => pure (acc ++ [path])) [] = ⟨.crash, []⟩
    ∧ collectCrontabs (sampleWorld "0" missingOpts []) missingOpts [] = ⟨.crash, []⟩
    ∧ main (sampleWorld "0" missingOpts []) =
        ⟨.crash, [.info "Starting version 0.1.0\n"]⟩ :=
  ⟨rfl, by decide, by decide, by decide⟩

/-- Witness of C1: on the sample file system the file opened under `/etc/cron.d` is one that
passed the check, and the rejected `/etc/cron.d/draft` adds no entry. -/
theorem crontabs_checked_witness :
    "/etc/cron.d/backup" ∈
        (sampleWorld "0" fullOpts ["/etc/crontab"]).argSources ["/etc/crontab"]
          ++ (sampleWorld "0" fullOpts ["/etc/crontab"]).includeSources fullOpts
    ∧ [⟨"@daily", "root", "run /etc/cron.d/backup", []⟩] =
        [] ++ ((sampleWorld "0" fullOpts ["/etc/crontab"]).includeSources fullOpts).flatMap
          (sampleWorld "0" fullOpts ["/etc/crontab"]).entriesOf :=
  ⟨(crontabs_checked (sampleWorld "0" fullOpts ["/etc/crontab"]) fullOpts ["/etc/crontab"]
      []).2.1 "/etc/cron.d/backup" (by decide),
    (crontabs_checked (sampleWorld "0" fullOpts ["/etc/crontab"]) fullOpts ["/etc/crontab"]
      []).2.2.2 [⟨"@daily", "root", "run /etc/cron.d/backup", []⟩] (by decide)⟩

/-- Witness of C2: below `/etc/cron.hourly` and `/srv/jobs` the callback is invoked for the
three executables and not for `/etc/cron.hourly/notes`. -/
theorem findExecutabes_invokes_witness :
    (findExecutabesInPathes (sampleWorld "0" plainOpts []) ["/etc/cron.hourly", "/srv/jobs"]
      (fun f path acc => pure (acc ++ [(f, path)])) []).res =
      .ok [(⟨⟨0o755⟩⟩, "/etc/cron.hourly/rotate"), (⟨⟨0o750⟩⟩, "/srv/jobs/lib/helper"),
        (⟨⟨0o700⟩⟩, "/srv/jobs/sync")] :=
  ((findExecutabes_invokes (sampleWorld "0" plainOpts [])
    ["/etc/cron.hourly", "/srv/jobs"]).2 []).trans (by decide)

end GoCrond
